import Mathlib

/-!
# SimpleMeshViewer: mesh operators and label import

A shallow embedding of `src/scene/Mesh.cpp` and
`src/command/ImportLabelDataCommand.cpp`.

The mesh container `MeshData` is an OpenMesh kernel.  The code reads it only
through handles and circulators, so the embedding keeps exactly that interface:
the number of vertices and faces, the position attached to a vertex handle and
the three circulators (`fv`, `vv`, `ff`) as functions from a handle to the
sequence of handles the circulator yields.

Numbers.  The Laplacian holds only the values `-1.0` and `0.0 + 1.0 + ... + 1.0`,
which are integers and exact in `double`; they are kept in `ℤ`.  Coordinates are
kept in `ℚ`, and arithmetic on them is exact; the conversion of `setPoints` from
`double` (Eigen tables) to `float` (OpenMesh points) is the rounding `toBinary32`.
Labels are `int`: a token read from a label file is stored as it is when it lies
between `INT_MIN` and `INT_MAX`, and as the bound it exceeds otherwise.
-/

namespace SimpleMeshViewer

/-! ## Data model -/

/-- A position `MeshData::Point`: three coordinates. -/
structure Point where
  x : ℚ
  y : ℚ
  z : ℚ
  deriving DecidableEq

namespace Point

/-- The origin. -/
def origin : Point := ⟨0, 0, 0⟩

/-- Component access `p[ci]` for `ci = 0, 1, 2`. -/
def get (p : Point) (ci : Nat) : ℚ :=
  if ci = 0 then p.x else if ci = 1 then p.y else p.z

/-- Component assignment `p[ci] = v` for `ci = 0, 1, 2`. -/
def set (p : Point) (ci : Nat) (v : ℚ) : Point :=
  if ci = 0 then { p with x := v } else if ci = 1 then { p with y := v } else { p with z := v }

/-- Vector sum, `operator+=`. -/
def add (p q : Point) : Point := ⟨p.x + q.x, p.y + q.y, p.z + q.z⟩

/-- Vector difference, `operator-`. -/
def sub (p q : Point) : Point := ⟨p.x - q.x, p.y - q.y, p.z - q.z⟩

/-- Division by a scalar, `operator/=`. -/
def divScalar (p : Point) (s : ℚ) : Point := ⟨p.x / s, p.y / s, p.z / s⟩

end Point

/-- The interface of the OpenMesh container the code uses: handle counts, the
position of a vertex handle, and the face-vertex, vertex-vertex and face-face
circulators, each given by the sequence of handle ids it yields. -/
structure MeshData where
  n_vertices : Nat
  n_faces : Nat
  point : Nat → Point
  fv : Nat → List Nat
  vv : Nat → List Nat
  ff : Nat → List Nat

/-- Modelled from the spec: `Mesh::numVertices` is declared in `Mesh.h`, which is
not part of the sources at hand; the spec lists it as the number of vertices. -/
def numVertices (mesh : MeshData) : Nat := mesh.n_vertices

/-- Modelled from the spec: `Mesh::numFaces` is declared in `Mesh.h`, which is
not part of the sources at hand; the spec lists it as the number of faces. -/
def numFaces (mesh : MeshData) : Nat := mesh.n_faces

/-! ## Sparse matrices -/

/-- An `Eigen::SparseMatrix<double>` during an insertion session: its size and
the entries stored so far, in insertion order, as `(row, column, value)`. -/
structure SparseMatrix where
  rows : Nat
  cols : Nat
  entries : List (Nat × Nat × ℤ)

namespace SparseMatrix

/-- `L.resize (rows, cols)`: an empty matrix of the given size. -/
def resize (_L : SparseMatrix) (rows cols : Nat) : SparseMatrix := ⟨rows, cols, []⟩

/-- `L.insert (i, j) = v`: store a new entry. -/
def insert (L : SparseMatrix) (i j : Nat) (v : ℤ) : SparseMatrix :=
  { L with entries := L.entries ++ [(i, j, v)] }

/-- The coefficient at `(i, j)`: the stored value when the position was inserted
once, `0` when it was never inserted.  A position inserted several times holds
several stored values; they are added, as every Eigen operation that walks the
stored entries (products, sums) does. -/
def coeff (L : SparseMatrix) (i j : Nat) : ℤ :=
  ((L.entries.filter (fun e => e.1 = i ∧ e.2.1 = j)).map (fun e => e.2.2)).sum

end SparseMatrix

/-! ## `Mesh::vertexLaplacian` -/

/-- The inner loop of `Mesh::vertexLaplacian` for the vertex `i`: one `-w` entry
per handle the vertex-vertex circulator yields, accumulating `w_sum`. -/
def vertexLaplacianRow (mesh : MeshData) (i : Nat) (L : SparseMatrix) : SparseMatrix × ℤ :=
  (mesh.vv i).foldl
    (fun (acc : SparseMatrix × ℤ) (j : Nat) =>
      let w : ℤ := 1
      (acc.1.insert i j (-w), acc.2 + w))
    (L, 0)

/-- `Mesh::vertexLaplacian`: resize to `numVertices × numVertices`, then for every
vertex run the inner loop and insert `w_sum` on the diagonal.  `reserve` and
`makeCompressed` change the storage layout only. -/
def vertexLaplacian (mesh : MeshData) (L : SparseMatrix) : SparseMatrix :=
  let numRows := numVertices mesh
  let numCols := numRows
  (List.range mesh.n_vertices).foldl
    (fun (L : SparseMatrix) (i : Nat) =>
      let r := vertexLaplacianRow mesh i L
      r.1.insert i i r.2)
    (L.resize numRows numCols)

/-- The entries the loop body of `vertexLaplacian` stores for vertex `i`. -/
def rowEntries (mesh : MeshData) (i : Nat) : List (Nat × Nat × ℤ) :=
  (mesh.vv i).map (fun j => (i, j, (-1 : ℤ))) ++ [(i, i, ((mesh.vv i).length : ℤ))]

/-- The sum of row `i` over all columns of the matrix. -/
def rowSum (L : SparseMatrix) (i : Nat) : ℤ :=
  ∑ j in Finset.range L.cols, L.coeff i j

/-- The quadratic form `xᵀ L x` over the index range of the matrix. -/
def quadForm {K : Type} [Ring K] (L : SparseMatrix) (x : Nat → K) : K :=
  ∑ i in Finset.range L.rows, ∑ j in Finset.range L.cols, x i * (L.coeff i j : K) * x j

/-- The cyclically consecutive pairs of a face's vertex sequence: its edges. -/
def faceEdges (vs : List Nat) : List (Nat × Nat) := vs.zip (vs.rotate 1)

/-- Vertices `i` and `j` are the two ends of an edge of some face of the mesh. -/
def sharesEdge (mesh : MeshData) (i j : Nat) : Bool :=
  (List.range mesh.n_faces).any
    (fun f => (faceEdges (mesh.fv f)).any (fun e => (e.1 = i ∧ e.2 = j) ∨ (e.1 = j ∧ e.2 = i)))

/-- The sum over the edges `{i, j}` (each taken once, as `i < j` with `j` among the
neighbours of `i`) of `(x i - x j)²`. -/
def edgeEnergy {K : Type} [Ring K] (mesh : MeshData) (x : Nat → K) : K :=
  ∑ i in Finset.range mesh.n_vertices,
    ∑ j in (Finset.range mesh.n_vertices).filter (fun j => i < j ∧ j ∈ mesh.vv i),
      (x i - x j) ^ 2

/-- The tetrahedron: four vertices, four triangles, every vertex adjacent to the
other three. -/
def tetrahedron : MeshData where
  n_vertices := 4
  n_faces := 4
  point := fun v =>
    if v = 0 then ⟨0, 0, 0⟩ else if v = 1 then ⟨3, 0, 0⟩ else if v = 2 then ⟨0, 4, 0⟩ else ⟨0, 0, 12⟩
  fv := fun f =>
    if f = 0 then [0, 2, 1] else if f = 1 then [0, 1, 3] else if f = 2 then [1, 2, 3]
    else if f = 3 then [0, 3, 2] else []
  vv := fun v =>
    if v = 0 then [1, 3, 2] else if v = 1 then [0, 2, 3] else if v = 2 then [0, 3, 1]
    else if v = 3 then [0, 1, 2] else []
  ff := fun f =>
    if f = 0 then [3, 2, 1] else if f = 1 then [0, 2, 3] else if f = 2 then [0, 3, 1]
    else if f = 3 then [1, 2, 0] else []

/-! ## `ImportLabelDataCommand::doImp` -/

/-- The largest `int`, `INT_MAX`. -/
def intMax : Int := 2147483647

/-- The smallest `int`, `INT_MIN`. -/
def intMin : Int := -2147483648

/-- A `std::ifstream` read with `operator>>` into an `int`: the fail state of the
stream and the integer tokens still ahead of the read position.  A token is a
decimal integer of any size, as written in the file. -/
structure IfStream where
  fail : Bool
  tokens : List Int

namespace IfStream

/-- `std::ifstream ifs (path)`.  The file is given by its content, a sequence of
whitespace-separated decimal integers, `none` being a file that cannot be opened:
the stream is then in the fail state. -/
def ofFile (file : Option (List Int)) : IfStream :=
  match file with
  | none => ⟨true, []⟩
  | some ts => ⟨false, ts⟩

/-- `ifs >> x` for `int x`.  A stream in the fail state leaves `x` alone.  At the
end of the file the stream fails and `x` is left alone.  Otherwise the next token
is read: one that fits an `int` is stored in `x`; one below `INT_MIN` or above
`INT_MAX` stores that bound in `x` and puts the stream in the fail state. -/
def extract (ifs : IfStream) (x : Int) : IfStream × Int :=
  if ifs.fail then (ifs, x)
  else
    match ifs.tokens with
    | [] => (⟨true, []⟩, x)
    | t :: ts =>
      if t < intMin then (⟨true, ts⟩, intMin)
      else if intMax < t then (⟨true, ts⟩, intMax)
      else (⟨false, ts⟩, t)

end IfStream

/-- The vector `faceLabels (numFaces)`, zero-initialised, after the loop
`for (fi = 0; fi < numFaces; fi++) ifs >> faceLabels[fi]`. -/
def readFaceLabels (ifs : IfStream) (numFaces : Nat) : IfStream × List Int :=
  (List.range numFaces).foldl
    (fun (st : IfStream × List Int) (fi : Nat) =>
      let r := st.1.extract (st.2.getD fi 0)
      (r.1, st.2.set fi r.2))
    (ifs, List.replicate numFaces 0)

/-- What the reading loop stores in `m` entries from the tokens ahead: the tokens
in order while they fit an `int`; at the first one that does not, the bound it
exceeds and zeros after it; zeros once the tokens are used up. -/
def fillTokens : List Int → Nat → List Int
  | _, 0 => []
  | [], m + 1 => List.replicate (m + 1) 0
  | t :: ts, m + 1 =>
    if t < intMin then intMin :: List.replicate m 0
    else if intMax < t then intMax :: List.replicate m 0
    else t :: fillTokens ts m

/-- What the reading loop stores in the part of the vector it has not reached:
nothing but zeros once the stream has failed, `fillTokens` otherwise. -/
def fill (ifs : IfStream) (m : Nat) : List Int :=
  if ifs.fail then List.replicate m 0
  else fillTokens ifs.tokens m

/-- What `doImp` leaves behind: the member `_inputFile`, and the vector handed to
`setFaceLabelData` when that call is made (`none` when it is not). -/
structure DoImpResult where
  inputFile : String
  call : Option (List Int)

/-- The path `doImp` works on: the member `_inputFile`, or the answer of the file
dialog when the member is empty. -/
def chosenPath (inputFile dialog : String) : String :=
  if inputFile = "" then dialog else inputFile

/-- `ImportLabelDataCommand::doImp`.  `dialog` is the answer of
`QFileDialog::getOpenFileName` (empty when cancelled) and `file` the file
system: the integer tokens of the file under a path, or `none`. -/
def doImp (dialog : String) (file : String → Option (List Int)) (mesh : MeshData)
    (inputFile : String) : DoImpResult :=
  let inputFile := if inputFile = "" then dialog else inputFile
  if inputFile = "" then ⟨inputFile, none⟩
  else
    let ifs := IfStream.ofFile (file inputFile)
    let numFaces := numFaces mesh
    let faceLabels := (readFaceLabels ifs numFaces).2
    ⟨"", some faceLabels⟩

/-- Modelled from the spec: `LabelData::setFaceLabelData` is not part of the
sources at hand; the spec has the vector assigned as the face label attribute,
index-aligned. -/
def setFaceLabelData (_labels : List Int) (faceLabels : List Int) : List Int := faceLabels

/-- The face labels after `doImp`, from those held before it. -/
def labelsAfter (labels : List Int) (r : DoImpResult) : List Int :=
  match r.call with
  | none => labels
  | some faceLabels => setFaceLabelData labels faceLabels

/-- A file system with the one file `labels.dat`. -/
def oneFile (ts : List Int) (path : String) : Option (List Int) :=
  if path = "labels.dat" then some ts else none

/-! ## `closestVertexID` and `Mesh::cleanIsolatedFaces` -/

/-- The default threshold `th = 1e-7` of `closestVertexID`. -/
def defaultTh : ℚ := 1 / 10000000

/-- `closestVertexID (mesh, vID, th)`.  `norm` is the length `( q - p ).norm ()` of
OpenMesh.  The loop keeps `(dMin, vIDmin)`, starting from `(1e10, vID)`. -/
def closestVertexID (norm : Point → ℚ) (mesh : MeshData) (vID : Nat) (th : ℚ) : Nat :=
  let p := mesh.point vID
  let r := (List.range mesh.n_vertices).foldl
    (fun (st : ℚ × Nat) (v : Nat) =>
      if v = vID then st
      else
        let q := mesh.point v
        let d := norm (q.sub p)
        if d < st.1 then (d, v) else st)
    (10000000000, vID)
  if r.1 < th then r.2 else vID

/-- The body of the face loop of `cleanIsolatedFaces`: `true` when the branch
printing `Isolated: face` is taken for the face `f`. -/
def reportsFace (norm : Point → ℚ) (mesh : MeshData) (f : Nat) : Bool :=
  let num_connected_faces := (mesh.ff f).foldl (fun (n : Nat) _ => n + 1) 0
  if num_connected_faces > 0 then false
  else
    let isolated := (mesh.fv f).foldl
      (fun (isolated : Bool) (vID : Nat) =>
        let vcID := closestVertexID norm mesh vID defaultTh
        isolated && decide (vID ≠ vcID))
      true
    isolated

/-- `Mesh::cleanIsolatedFaces`: the face ids printed as `Isolated: face`, in
order.  The mesh itself is left as it is: the deletion and the rebuild are
commented out, so the final `garbage_collection` finds nothing to remove. -/
def cleanIsolatedFaces (norm : Point → ℚ) (mesh : MeshData) : List Nat :=
  (List.range mesh.n_faces).foldl
    (fun (reported : List Nat) (f : Nat) =>
      if reportsFace norm mesh f then reported ++ [f] else reported)
    []

/-- Square root of a rational, taken on numerator and denominator: exact on the
square of a rational, rounded down on each part otherwise. -/
def ratSqrt (q : ℚ) : ℚ := (Nat.sqrt q.num.toNat : ℚ) / (Nat.sqrt q.den : ℚ)

/-- The Euclidean length `√(x² + y² + z²)` wherever that length is rational, which
is the case between any two vertices of the meshes below (`euclidExactOn`); an
irrational length is rounded down on numerator and denominator.  The theorems on
`closestVertexID` and `cleanIsolatedFaces` hold for every `norm`; this one only
serves their concrete instances. -/
def euclidNorm (p : Point) : ℚ := ratSqrt (p.x * p.x + p.y * p.y + p.z * p.z)

/-- One triangle with sides 3, 4, 5 and no other face. -/
def oneTriangle : MeshData where
  n_vertices := 3
  n_faces := 1
  point := fun v => if v = 0 then ⟨0, 0, 0⟩ else if v = 1 then ⟨3, 0, 0⟩ else ⟨0, 4, 0⟩
  fv := fun f => if f = 0 then [0, 1, 2] else []
  vv := fun v => if v = 0 then [1, 2] else if v = 1 then [2, 0] else if v = 2 then [0, 1] else []
  ff := fun _ => []

/-- Two triangles that meet in a point stored twice, as vertex 0 and as vertex 3,
and share no edge. -/
def twoTriangles : MeshData where
  n_vertices := 6
  n_faces := 2
  point := fun v =>
    if v = 0 then ⟨0, 0, 0⟩ else if v = 1 then ⟨3, 0, 0⟩ else if v = 2 then ⟨0, 4, 0⟩
    else if v = 3 then ⟨0, 0, 0⟩ else if v = 4 then ⟨-3, 0, 0⟩ else ⟨0, -4, 0⟩
  fv := fun f => if f = 0 then [0, 1, 2] else if f = 1 then [3, 4, 5] else []
  vv := fun v =>
    if v = 0 then [1, 2] else if v = 1 then [2, 0] else if v = 2 then [0, 1]
    else if v = 3 then [4, 5] else if v = 4 then [5, 3] else if v = 5 then [3, 4] else []
  ff := fun _ => []

/-- The distance from vertex `u` to vertex `vID`, as `closestVertexID` computes it. -/
def distTo (norm : Point → ℚ) (mesh : MeshData) (vID u : Nat) : ℚ :=
  norm ((mesh.point u).sub (mesh.point vID))

/-- The state `(dMin, vIDmin)` of the search loop after the vertices `done`. -/
def SearchInv (norm : Point → ℚ) (mesh : MeshData) (vID : Nat) (done : List Nat)
    (st : ℚ × Nat) : Prop :=
  st.1 ≤ 10000000000
    ∧ ((st.2 = vID ∧ st.1 = 10000000000)
        ∨ (st.2 ≠ vID ∧ st.2 ∈ done ∧ st.1 = distTo norm mesh vID st.2))
    ∧ ∀ u ∈ done, u ≠ vID → st.1 ≤ distTo norm mesh vID u

/-- A triangle stored twice: the faces `[0, 1, 2]` and `[3, 4, 5]` lie on the same
three points and share no vertex id, hence no edge. -/
def doubledTriangle : MeshData where
  n_vertices := 6
  n_faces := 2
  point := fun v =>
    if v = 0 then ⟨0, 0, 0⟩ else if v = 1 then ⟨3, 0, 0⟩ else if v = 2 then ⟨0, 4, 0⟩
    else if v = 3 then ⟨0, 0, 0⟩ else if v = 4 then ⟨3, 0, 0⟩ else ⟨0, 4, 0⟩
  fv := fun f => if f = 0 then [0, 1, 2] else if f = 1 then [3, 4, 5] else []
  vv := fun v =>
    if v = 0 then [1, 2] else if v = 1 then [2, 0] else if v = 2 then [0, 1]
    else if v = 3 then [4, 5] else if v = 4 then [5, 3] else if v = 5 then [3, 4] else []
  ff := fun _ => []

/-! ## Dense tables: `Mesh::points`, `Mesh::setPoints`, `Mesh::faceCenters` -/

/-- An `Eigen::MatrixXd`: its size and its coefficients. -/
structure MatrixXd where
  rows : Nat
  cols : Nat
  coeff : Nat → Nat → ℚ

namespace MatrixXd

/-- `V.resize (rows, cols)`.  Eigen does not say what the coefficients of a resized
table are; whatever they are, they are the ones of the table at hand. -/
def resize (V : MatrixXd) (rows cols : Nat) : MatrixXd := { V with rows := rows, cols := cols }

/-- `V (i, j) = v`. -/
def set (V : MatrixXd) (i j : Nat) (v : ℚ) : MatrixXd :=
  { V with coeff := fun a b => if a = i ∧ b = j then v else V.coeff a b }

end MatrixXd

/-- Round to the nearest integer, a tie going to the even one. -/
def roundHalfEven (q : ℚ) : ℤ :=
  if q - ⌊q⌋ < 1 / 2 then ⌊q⌋
  else if 1 / 2 < q - ⌊q⌋ then ⌊q⌋ + 1
  else if ⌊q⌋ % 2 = 0 then ⌊q⌋ else ⌊q⌋ + 1

/-- The exponent `k` of the spacing `2^k` of the binary32 numbers around `q`:
`2^23 ≤ |q| / 2^k < 2^24`, searched from `k` upward or downward, and never below
the subnormal spacing `2^-149`. -/
def ulpExp32 : Nat → ℚ → ℤ → ℤ
  | 0, _, k => k
  | fuel + 1, q, k =>
    if 16777216 * (2 : ℚ) ^ k ≤ |q| then ulpExp32 fuel q (k + 1)
    else if |q| < 8388608 * (2 : ℚ) ^ k ∧ -149 < k then ulpExp32 fuel q (k - 1)
    else k

/-- The spacing of the binary32 numbers around `q`. -/
def ulp32 (q : ℚ) : ℚ := 2 ^ ulpExp32 400 q 0

/-- The conversion `double → float` of IEEE 754 for a finite value within the
binary32 range: the multiple of the spacing nearest to `q`, ties to even. -/
def toBinary32 (q : ℚ) : ℚ := (roundHalfEven (q / ulp32 q) : ℚ) * ulp32 q

/-- The largest finite binary32 number, `FLT_MAX = (2^24 - 1) * 2^104`. -/
def fltMax : ℚ := (2 ^ 24 - 1) * 2 ^ 104

/-- The finite binary32 numbers: a significand of at most 24 bits times a power of
two between `2^-149` and `2^104`. -/
def IsBinary32 (q : ℚ) : Prop :=
  ∃ m e : ℤ, |m| < 2 ^ 24 ∧ -149 ≤ e ∧ e ≤ 104 ∧ q = (m : ℚ) * 2 ^ e

/-- `Mesh::points`: resize to `numVertices × 3`, then copy the three components of
every vertex position into the row of its id.  A `float` widens to `double`
without change. -/
def points (mesh : MeshData) (V : MatrixXd) : MatrixXd :=
  (List.range mesh.n_vertices).foldl
    (fun (V : MatrixXd) (v : Nat) =>
      let p := mesh.point v
      (List.range 3).foldl (fun (V : MatrixXd) (ci : Nat) => V.set v ci (p.get ci)) V)
    (V.resize (numVertices mesh) 3)

/-- `Mesh::setPoints`: for every vertex, build a point from row `v` of `V` and store
it.  `p[ci] = V (v, ci)` assigns a `double` to a `float` component (the points are
handed to OpenGL as `GL_FLOAT`), which is the conversion `toBinary32`; an entry
beyond `FLT_MAX`, which the code turns into an infinity, is outside the embedding.
`uninit v` is the content of the default-constructed `MeshData::Point p` for the
vertex `v`.  The calls that follow (`update_normals`, `updateBoundingBox`,
`emit updated`) touch neither positions nor connectivity. -/
def setPoints (uninit : Nat → Point) (mesh : MeshData) (V : MatrixXd) : MeshData :=
  (List.range mesh.n_vertices).foldl
    (fun (mesh : MeshData) (v : Nat) =>
      let p := (List.range 3).foldl
        (fun (p : Point) (ci : Nat) => p.set ci (toBinary32 (V.coeff v ci))) (uninit v)
      { mesh with point := fun u => if u = v then p else mesh.point u })
    mesh

/-- The centre `faceCenters` computes for the face `f`.  `MeshData::Point center;`
is default-constructed in every pass of the face loop and never assigned before
`center += p`; OpenMesh's default constructor leaves the components
uninitialised, and `uninit f` is what they hold in the pass for `f`. -/
def faceCenter (uninit : Nat → Point) (mesh : MeshData) (f : Nat) : Point :=
  let r := (mesh.fv f).foldl
    (fun (st : Point × ℚ) (v : Nat) =>
      let p := mesh.point v
      (st.1.add p, st.2 + 1))
    (uninit f, 0)
  if r.2 > 0 then r.1.divScalar r.2 else r.1

/-- `Mesh::faceCenters`: resize to `numFaces × 3`, then write the centre of every
face into the row of its id. -/
def faceCenters (uninit : Nat → Point) (mesh : MeshData) (V : MatrixXd) : MatrixXd :=
  (List.range mesh.n_faces).foldl
    (fun (V : MatrixXd) (f : Nat) =>
      let center := faceCenter uninit mesh f
      (List.range 3).foldl (fun (V : MatrixXd) (ci : Nat) => V.set f ci (center.get ci)) V)
    (V.resize (numFaces mesh) 3)

/-- The arithmetic mean of the positions of the vertices of face `f`. -/
def faceMean (mesh : MeshData) (f : Nat) : Point :=
  (((mesh.fv f).map mesh.point).foldl Point.add Point.origin).divScalar ((mesh.fv f).length : ℚ)

/-- A table given by its rows. -/
def MatrixXd.ofRows (rs : List (List ℚ)) : MatrixXd where
  rows := rs.length
  cols := 3
  coeff := fun i j => (rs.getD i []).getD j 0

/-- A mesh with one face that has no vertex. -/
def emptyFace : MeshData where
  n_vertices := 0
  n_faces := 1
  point := fun _ => ⟨0, 0, 0⟩
  fv := fun _ => []
  vv := fun _ => []
  ff := fun _ => []

/-- A 3 × 3 table of binary32 values. -/
def sampleTable : MatrixXd := MatrixXd.ofRows [[1, 2, 3], [1 / 2, -5, 6], [7, 8, 3 / 4]]

/-- A 3 × 3 table whose first entry, `2^24 + 1`, is a `double` but not a `float`. -/
def wideTable : MatrixXd := MatrixXd.ofRows [[16777217, 0, 0], [3, 0, 0], [0, 4, 0]]

/-- On the mesh, `euclidNorm` is the exact Euclidean distance between any two
vertices: it is not negative and its square is the sum of the squared coordinate
differences. -/
@[reducible] def euclidExactOn (mesh : MeshData) : Prop :=
  ∀ u < mesh.n_vertices, ∀ v < mesh.n_vertices,
    0 ≤ euclidNorm ((mesh.point u).sub (mesh.point v))
      ∧ euclidNorm ((mesh.point u).sub (mesh.point v))
          * euclidNorm ((mesh.point u).sub (mesh.point v))
        = ((mesh.point u).sub (mesh.point v)).x * ((mesh.point u).sub (mesh.point v)).x
          + ((mesh.point u).sub (mesh.point v)).y * ((mesh.point u).sub (mesh.point v)).y
          + ((mesh.point u).sub (mesh.point v)).z * ((mesh.point u).sub (mesh.point v)).z

/-! ## Lemmas on the Laplacian -/

theorem vertexLaplacianRow_eq (mesh : MeshData) (i : Nat) (L : SparseMatrix) :
    vertexLaplacianRow mesh i L
      = ({ L with entries := L.entries ++ (mesh.vv i).map (fun j => (i, j, (-1 : ℤ))) },
          ((mesh.vv i).length : ℤ)) := by
  unfold vertexLaplacianRow
  suffices h : ∀ (l : List Nat) (M : SparseMatrix) (s : ℤ),
      l.foldl (fun (acc : SparseMatrix × ℤ) (j : Nat) =>
          let w : ℤ := 1
          (acc.1.insert i j (-w), acc.2 + w)) (M, s)
        = ({ M with entries := M.entries ++ l.map (fun j => (i, j, (-1 : ℤ))) },
            s + (l.length : ℤ)) by
    simpa using h (mesh.vv i) L 0
  intro l
  induction l with
  | nil => intro M s; simp
  | cons a t ih =>
    intro M s
    simp only [List.foldl_cons, List.map_cons, List.length_cons]
    rw [ih]
    simp only [SparseMatrix.insert, List.append_assoc, List.singleton_append, Prod.mk.injEq,
      true_and]
    push_cast
    ring

theorem vertexLaplacian_entries (mesh : MeshData) (L : SparseMatrix) :
    vertexLaplacian mesh L
      = ⟨mesh.n_vertices, mesh.n_vertices, (List.range mesh.n_vertices).flatMap (rowEntries mesh)⟩ := by
  unfold vertexLaplacian
  suffices h : ∀ (l : List Nat) (M : SparseMatrix),
      l.foldl (fun (L : SparseMatrix) (i : Nat) =>
          let r := vertexLaplacianRow mesh i L
          r.1.insert i i r.2) M
        = { M with entries := M.entries ++ l.flatMap (rowEntries mesh) } by
    simpa [SparseMatrix.resize, numVertices] using
      h (List.range mesh.n_vertices) (L.resize (numVertices mesh) (numVertices mesh))
  intro l
  induction l with
  | nil => intro M; simp
  | cons a t ih =>
    intro M
    simp only [List.foldl_cons, List.flatMap_cons]
    rw [ih, vertexLaplacianRow_eq]
    simp [SparseMatrix.insert, rowEntries]

/-- Sum of the stored values of an entry list at position `(i, j)`. -/
theorem coeff_mk (r c : Nat) (es : List (Nat × Nat × ℤ)) (i j : Nat) :
    (SparseMatrix.mk r c es).coeff i j
      = ((es.filter (fun e => e.1 = i ∧ e.2.1 = j)).map (fun e => e.2.2)).sum := rfl

theorem coeff_append (r c : Nat) (es fs : List (Nat × Nat × ℤ)) (i j : Nat) :
    (SparseMatrix.mk r c (es ++ fs)).coeff i j
      = (SparseMatrix.mk r c es).coeff i j + (SparseMatrix.mk r c fs).coeff i j := by
  simp [coeff_mk]

theorem coeff_rowEntries (mesh : MeshData) (r c k i j : Nat) :
    (SparseMatrix.mk r c (rowEntries mesh k)).coeff i j
      = if k = i then (if j = i then ((mesh.vv i).length : ℤ) else 0) - ((mesh.vv i).count j : ℤ)
        else 0 := by
  unfold rowEntries
  rw [coeff_append]
  by_cases hk : k = i
  · subst hk
    have h1 : ∀ l : List Nat,
        (SparseMatrix.mk r c (l.map (fun j => (k, j, (-1 : ℤ))))).coeff k j = - (l.count j : ℤ) := by
      intro l
      induction l with
      | nil => simp [coeff_mk]
      | cons a t ih =>
        rw [List.map_cons, ← List.singleton_append, coeff_append, ih, List.count_cons]
        by_cases ha : a = j
        · subst ha; simp [coeff_mk]
        · simp [coeff_mk, ha]
    rw [h1]
    by_cases hj : j = k
    · subst hj; simp [coeff_mk]; ring
    · have hj2 : ¬ k = j := fun h => hj h.symm
      simp [coeff_mk, hj, hj2]
  · have h1 : ∀ l : List Nat,
        (SparseMatrix.mk r c (l.map (fun j => (k, j, (-1 : ℤ))))).coeff i j = 0 := by
      intro l
      induction l with
      | nil => simp [coeff_mk]
      | cons a t ih =>
        rw [List.map_cons, ← List.singleton_append, coeff_append, ih]
        simp [coeff_mk, hk]
    rw [h1]
    simp [coeff_mk, hk]

theorem coeff_flatMap (mesh : MeshData) (r c : Nat) (l : List Nat) (hl : l.Nodup) (i j : Nat) :
    (SparseMatrix.mk r c (l.flatMap (rowEntries mesh))).coeff i j
      = if i ∈ l then (if j = i then ((mesh.vv i).length : ℤ) else 0) - ((mesh.vv i).count j : ℤ)
        else 0 := by
  induction l with
  | nil => simp [coeff_mk]
  | cons a t ih =>
    rw [List.flatMap_cons, coeff_append, coeff_rowEntries, ih (List.nodup_cons.mp hl).2]
    have hat : a ∉ t := (List.nodup_cons.mp hl).1
    by_cases ha : a = i
    · subst ha; simp [hat]
    · have hia : ¬ i = a := fun h => ha h.symm
      simp [ha, hia]

/-- Every coefficient of the Laplacian in closed form. -/
theorem vertexLaplacian_coeff (mesh : MeshData) (L : SparseMatrix) (i j : Nat) :
    (vertexLaplacian mesh L).coeff i j
      = if i < mesh.n_vertices then
          (if j = i then ((mesh.vv i).length : ℤ) else 0) - ((mesh.vv i).count j : ℤ)
        else 0 := by
  rw [vertexLaplacian_entries, coeff_flatMap mesh _ _ _ (List.nodup_range _)]
  simp [List.mem_range]

theorem sum_count_range (l : List Nat) (n : Nat) (h : ∀ x ∈ l, x < n) :
    ∑ j in Finset.range n, ((l.count j : ℕ) : ℤ) = (l.length : ℤ) := by
  induction l with
  | nil => simp
  | cons a t ih =>
    have ha : a < n := h a (List.mem_cons_self a t)
    have ht : ∀ x ∈ t, x < n := fun x hx => h x (List.mem_cons_of_mem a hx)
    simp only [List.count_cons, List.length_cons]
    push_cast
    rw [Finset.sum_add_distrib, ih ht]
    congr 1
    simp [Finset.sum_ite_eq, ha]

theorem count_of_nodup (l : List Nat) (h : l.Nodup) (j : Nat) :
    l.count j = if j ∈ l then 1 else 0 := by
  by_cases hj : j ∈ l
  · simp [hj, List.count_eq_one_of_mem h hj]
  · simp [hj, List.count_eq_zero_of_not_mem hj]

theorem sharesEdge_comm (mesh : MeshData) (i j : Nat) :
    sharesEdge mesh i j = sharesEdge mesh j i := by
  unfold sharesEdge
  congr 1
  funext f
  congr 1
  funext e
  simp only [decide_eq_decide]
  exact or_comm

/-- Folding the part of a double sum below the diagonal onto the part above it. -/
theorem sum_sum_fold_upper {K : Type} [CommRing K] (n : Nat) (f : Nat → Nat → K)
    (hdiag : ∀ i, f i i = 0) :
    ∑ i in Finset.range n, ∑ j in Finset.range n, f i j
      = ∑ i in Finset.range n, ∑ j in Finset.range n, (if i < j then f i j + f j i else 0) := by
  have h1 : ∀ i j, f i j = (if i < j then f i j else 0) + (if j < i then f i j else 0) := by
    intro i j
    rcases lt_trichotomy i j with h | h | h
    · simp [h, Nat.lt_asymm h]
    · subst h; simp [hdiag]
    · simp [h, Nat.lt_asymm h]
  have h2 : ∑ i in Finset.range n, ∑ j in Finset.range n, (if j < i then f i j else 0)
      = ∑ i in Finset.range n, ∑ j in Finset.range n, (if i < j then f j i else 0) :=
    Finset.sum_comm
  calc ∑ i in Finset.range n, ∑ j in Finset.range n, f i j
      = ∑ i in Finset.range n, ∑ j in Finset.range n,
          ((if i < j then f i j else 0) + (if j < i then f i j else 0)) := by
        refine Finset.sum_congr rfl (fun i _ => Finset.sum_congr rfl (fun j _ => h1 i j))
    _ = ∑ i in Finset.range n, ∑ j in Finset.range n, (if i < j then f i j else 0)
          + ∑ i in Finset.range n, ∑ j in Finset.range n, (if j < i then f i j else 0) := by
        simp only [Finset.sum_add_distrib]
    _ = ∑ i in Finset.range n, ∑ j in Finset.range n, (if i < j then f i j else 0)
          + ∑ i in Finset.range n, ∑ j in Finset.range n, (if i < j then f j i else 0) := by
        rw [h2]
    _ = ∑ i in Finset.range n, ∑ j in Finset.range n, (if i < j then f i j + f j i else 0) := by
        simp only [← Finset.sum_add_distrib]
        refine Finset.sum_congr rfl (fun i _ => Finset.sum_congr rfl (fun j _ => ?_))
        by_cases h : i < j <;> simp [h]

/-- Row `i` of the quadratic form, written with the 0/1 adjacency indicator. -/
theorem quadForm_row {K : Type} [CommRing K] (mesh : MeshData) (L : SparseMatrix)
    (x : Nat → K) (i : Nat) (hi : i < mesh.n_vertices) (hnd : (mesh.vv i).Nodup)
    (hlt : ∀ j ∈ mesh.vv i, j < mesh.n_vertices) :
    ∑ j in Finset.range mesh.n_vertices, x i * ((vertexLaplacian mesh L).coeff i j : K) * x j
      = ∑ j in Finset.range mesh.n_vertices,
          (if j ∈ mesh.vv i then (1 : K) else 0) * x i * (x i - x j) := by
  have hlen : ((mesh.vv i).length : K)
      = ∑ j in Finset.range mesh.n_vertices, (if j ∈ mesh.vv i then (1 : K) else 0) := by
    have h := sum_count_range (mesh.vv i) mesh.n_vertices hlt
    have h' : (((∑ j in Finset.range mesh.n_vertices, (((mesh.vv i).count j : ℕ) : ℤ)) : ℤ) : K)
        = (((mesh.vv i).length : ℤ) : K) := by rw [h]
    push_cast at h'
    rw [← h']
    refine Finset.sum_congr rfl (fun j _ => ?_)
    rw [count_of_nodup _ hnd]
    by_cases hj : j ∈ mesh.vv i <;> simp [hj]
  have hL : ∀ j, x i * ((vertexLaplacian mesh L).coeff i j : K) * x j
      = (if j = i then x i * ((mesh.vv i).length : K) * x i else 0)
        - (if j ∈ mesh.vv i then (1 : K) else 0) * x i * x j := by
    intro j
    rw [vertexLaplacian_coeff, count_of_nodup _ hnd]
    rcases eq_or_ne j i with hji | hji
    · subst hji
      by_cases hj : j ∈ mesh.vv j
      · simp [hi, hj]; ring
      · simp [hi, hj]
    · by_cases hj : j ∈ mesh.vv i
      · simp [hi, hj, hji]
      · simp [hi, hj, hji]
  have hR : ∀ j, (if j ∈ mesh.vv i then (1 : K) else 0) * x i * (x i - x j)
      = (if j ∈ mesh.vv i then (1 : K) else 0) * (x i * x i)
        - (if j ∈ mesh.vv i then (1 : K) else 0) * x i * x j := by
    intro j; ring
  simp only [hL, hR, Finset.sum_sub_distrib]
  congr 1
  rw [← Finset.sum_mul, ← hlen]
  simp [Finset.sum_ite_eq', hi]
  ring

/-! ## Lemmas on the label import -/

theorem getD_append_cons (pre : List Int) (a : Int) (rest : List Int) (d : Int) :
    (pre ++ a :: rest).getD pre.length d = a := by
  induction pre with
  | nil => rfl
  | cons b t ih => simpa using ih

theorem set_append_cons (pre : List Int) (a b : Int) (rest : List Int) :
    (pre ++ a :: rest).set pre.length b = pre ++ b :: rest := by
  induction pre with
  | nil => rfl
  | cons c t ih => simp [List.set, ih]

theorem fillTokens_nil (m : Nat) : fillTokens [] m = List.replicate m 0 := by
  cases m <;> rfl

theorem fillTokens_of_fit (ts : List Int) (m : Nat)
    (hfit : ∀ t ∈ ts.take m, intMin ≤ t ∧ t ≤ intMax) :
    fillTokens ts m = ts.take m ++ List.replicate (m - ts.length) 0 := by
  induction m generalizing ts with
  | zero => simp [fillTokens]
  | succ m ih =>
    cases ts with
    | nil => simp [fillTokens]
    | cons t rest =>
      have ht : intMin ≤ t ∧ t ≤ intMax := hfit t (by simp)
      have hrest : ∀ t' ∈ rest.take m, intMin ≤ t' ∧ t' ≤ intMax :=
        fun t' h' => hfit t' (by simp [h'])
      have h1 : ¬ t < intMin := not_lt.mpr ht.1
      have h2 : ¬ intMax < t := not_lt.mpr ht.2
      simp [fillTokens, h1, h2, ih rest hrest]

theorem readLoop_spec (m : Nat) :
    ∀ (k : Nat) (pre : List Int) (ifs : IfStream), pre.length = k →
      ((List.range' k m).foldl
        (fun (st : IfStream × List Int) (fi : Nat) =>
          let r := st.1.extract (st.2.getD fi 0)
          (r.1, st.2.set fi r.2))
        (ifs, pre ++ List.replicate m 0)).2 = pre ++ fill ifs m := by
  induction m with
  | zero => intro k pre ifs _; simp [fill, fillTokens_nil, fillTokens]
  | succ m ih =>
    intro k pre ifs hk
    subst hk
    have hrange : List.range' pre.length (m + 1) = pre.length :: List.range' (pre.length + 1) m := by
      simp [List.range']
    rw [hrange, List.foldl_cons, List.replicate_succ]
    simp only [getD_append_cons]
    by_cases hf : ifs.fail = true
    · have he : ifs.extract 0 = (ifs, 0) := by simp [IfStream.extract, hf]
      rw [he]
      simp only [set_append_cons]
      have h := ih (pre.length + 1) (pre ++ [0]) ifs (by simp)
      simp only [List.append_assoc, List.singleton_append] at h
      rw [h]
      simp [fill, hf, List.replicate_succ]
    · cases hts : ifs.tokens with
      | nil =>
        have he : ifs.extract 0 = (⟨true, []⟩, 0) := by simp [IfStream.extract, hf, hts]
        rw [he]
        simp only [set_append_cons]
        have h := ih (pre.length + 1) (pre ++ [0]) ⟨true, []⟩ (by simp)
        simp only [List.append_assoc, List.singleton_append] at h
        rw [h]
        simp [fill, hf, hts, fillTokens, List.replicate_succ]
      | cons t rest =>
        by_cases h1 : t < intMin
        · have he : ifs.extract 0 = (⟨true, rest⟩, intMin) := by
            simp [IfStream.extract, hf, hts, h1]
          rw [he]
          simp only [set_append_cons]
          have h := ih (pre.length + 1) (pre ++ [intMin]) ⟨true, rest⟩ (by simp)
          simp only [List.append_assoc, List.singleton_append] at h
          rw [h]
          simp [fill, hf, hts, fillTokens, h1]
        · by_cases h2 : intMax < t
          · have he : ifs.extract 0 = (⟨true, rest⟩, intMax) := by
              simp [IfStream.extract, hf, hts, h1, h2]
            rw [he]
            simp only [set_append_cons]
            have h := ih (pre.length + 1) (pre ++ [intMax]) ⟨true, rest⟩ (by simp)
            simp only [List.append_assoc, List.singleton_append] at h
            rw [h]
            simp [fill, hf, hts, fillTokens, h1, h2]
          · have he : ifs.extract 0 = (⟨false, rest⟩, t) := by
              simp [IfStream.extract, hf, hts, h1, h2]
            rw [he]
            simp only [set_append_cons]
            have h := ih (pre.length + 1) (pre ++ [t]) ⟨false, rest⟩ (by simp)
            simp only [List.append_assoc, List.singleton_append] at h
            rw [h]
            simp [fill, hf, hts, fillTokens, h1, h2]

theorem readFaceLabels_eq (ifs : IfStream) (numFaces : Nat) :
    (readFaceLabels ifs numFaces).2 = fill ifs numFaces := by
  unfold readFaceLabels
  rw [List.range_eq_range']
  simpa using readLoop_spec numFaces 0 [] ifs rfl

/-- The vector `doImp` hands over when a path is chosen. -/
theorem doImp_call (dialog : String) (file : String → Option (List Int)) (mesh : MeshData)
    (inputFile : String) (hpath : chosenPath inputFile dialog ≠ "") :
    doImp dialog file mesh inputFile
      = ⟨"", some (fill (IfStream.ofFile (file (chosenPath inputFile dialog))) mesh.n_faces)⟩ := by
  unfold chosenPath at hpath
  unfold doImp
  simp only [hpath, if_false, readFaceLabels_eq, numFaces, chosenPath]

/-- A token that does not fit an `int` is stored as the bound it exceeds and ends
the reading: the entries after it stay zero. -/
theorem doImp_token_out_of_range :
    (doImp "labels.dat" (oneFile [2147483647, -2147483648, 2147483648, 7]) tetrahedron "").call
      = some [2147483647, -2147483648, 2147483647, 0] := by
  decide

/-! ## Claims on `Mesh::vertexLaplacian` -/

/-- C1: for a vertex `i` whose neighbour sequence has no repeated id and does not
contain `i`, the matrix built by `vertexLaplacian` is `numVertices × numVertices`,
its entry `(i, i)` is the number of neighbours, `(i, j)` is `-1` for every
neighbour `j`, and `0` for every other `j`. -/
theorem vertexLaplacian_row_spec (mesh : MeshData) (L : SparseMatrix) (i : Nat)
    (hi : i < numVertices mesh) (hnd : (mesh.vv i).Nodup) (hself : i ∉ mesh.vv i) :
    (vertexLaplacian mesh L).rows = numVertices mesh
      ∧ (vertexLaplacian mesh L).cols = numVertices mesh
      ∧ (vertexLaplacian mesh L).coeff i i = ((mesh.vv i).length : ℤ)
      ∧ (∀ j ∈ mesh.vv i, (vertexLaplacian mesh L).coeff i j = -1)
      ∧ (∀ j, j ≠ i → j ∉ mesh.vv i → (vertexLaplacian mesh L).coeff i j = 0) := by
  have hi2 : i < mesh.n_vertices := hi
  refine ⟨by rw [vertexLaplacian_entries]; rfl, by rw [vertexLaplacian_entries]; rfl, ?_, ?_, ?_⟩
  · rw [vertexLaplacian_coeff]
    simp [hi2, List.count_eq_zero_of_not_mem hself]
  · intro j hj
    have hji : j ≠ i := fun h => hself (h ▸ hj)
    rw [vertexLaplacian_coeff]
    simp [hi2, hji, List.count_eq_one_of_mem hnd hj]
  · intro j hji hj
    rw [vertexLaplacian_coeff]
    simp [hi2, hji, List.count_eq_zero_of_not_mem hj]

/-- C1 on the tetrahedron: vertex 0 meets the hypotheses, and the whole matrix is
the dense 4 × 4 matrix with 3 on the diagonal and -1 elsewhere. -/
theorem vertexLaplacian_row_spec_witness :
    (0 < numVertices tetrahedron ∧ (tetrahedron.vv 0).Nodup ∧ 0 ∉ tetrahedron.vv 0)
      ∧ ((vertexLaplacian tetrahedron ⟨0, 0, []⟩).rows = numVertices tetrahedron
        ∧ (vertexLaplacian tetrahedron ⟨0, 0, []⟩).cols = numVertices tetrahedron
        ∧ (vertexLaplacian tetrahedron ⟨0, 0, []⟩).coeff 0 0 = ((tetrahedron.vv 0).length : ℤ)
        ∧ (∀ j ∈ tetrahedron.vv 0, (vertexLaplacian tetrahedron ⟨0, 0, []⟩).coeff 0 j = -1)
        ∧ (∀ j, j ≠ 0 → j ∉ tetrahedron.vv 0 →
            (vertexLaplacian tetrahedron ⟨0, 0, []⟩).coeff 0 j = 0))
      ∧ (∀ i < 4, ∀ j < 4,
          (vertexLaplacian tetrahedron ⟨0, 0, []⟩).coeff i j = if i = j then 3 else -1) :=
  ⟨by decide, vertexLaplacian_row_spec tetrahedron ⟨0, 0, []⟩ 0 (by decide) (by decide) (by decide),
    by decide⟩

/-- C2: every row of the matrix built by `vertexLaplacian` sums to zero over all
columns, the neighbour ids being vertex ids. -/
theorem vertexLaplacian_rowSum_zero (mesh : MeshData) (L : SparseMatrix) (i : Nat)
    (hvv : ∀ j ∈ mesh.vv i, j < numVertices mesh) :
    rowSum (vertexLaplacian mesh L) i = 0 := by
  unfold rowSum
  have hc : (vertexLaplacian mesh L).cols = mesh.n_vertices := by
    rw [vertexLaplacian_entries]
  rw [hc]
  by_cases hi : i < mesh.n_vertices
  · simp only [vertexLaplacian_coeff, hi, if_true]
    rw [Finset.sum_sub_distrib, sum_count_range (mesh.vv i) mesh.n_vertices hvv]
    simp [Finset.sum_ite_eq', hi]
  · simp [vertexLaplacian_coeff, hi]

/-- C2 on the tetrahedron, row 2. -/
theorem vertexLaplacian_rowSum_zero_witness :
    (∀ j ∈ tetrahedron.vv 2, j < numVertices tetrahedron)
      ∧ rowSum (vertexLaplacian tetrahedron ⟨0, 0, []⟩) 2 = 0 :=
  ⟨by decide, vertexLaplacian_rowSum_zero tetrahedron ⟨0, 0, []⟩ 2 (by decide)⟩

/-- C3: when the vertex-vertex circulator enumerates, without repetition, exactly
the vertices sharing an edge of a face with the given vertex, the matrix built by
`vertexLaplacian` is symmetric and positive semi-definite: `xᵀ L x` is the sum
over the edges of `(x i - x j)²`, hence non-negative. -/
theorem vertexLaplacian_symmetric_psd {K : Type} [LinearOrderedCommRing K]
    (mesh : MeshData) (L : SparseMatrix)
    (hnd : ∀ i < numVertices mesh, (mesh.vv i).Nodup)
    (hlt : ∀ i < numVertices mesh, ∀ j ∈ mesh.vv i, j < numVertices mesh)
    (hadj : ∀ i < numVertices mesh, ∀ j < numVertices mesh,
      (j ∈ mesh.vv i ↔ sharesEdge mesh i j = true)) :
    (∀ i < numVertices mesh, ∀ j < numVertices mesh,
        (vertexLaplacian mesh L).coeff i j = (vertexLaplacian mesh L).coeff j i)
      ∧ ∀ x : Nat → K,
          quadForm (vertexLaplacian mesh L) x = edgeEnergy mesh x
            ∧ 0 ≤ quadForm (vertexLaplacian mesh L) x := by
  have hsym : ∀ i < mesh.n_vertices, ∀ j < mesh.n_vertices,
      (j ∈ mesh.vv i ↔ i ∈ mesh.vv j) := by
    intro i hi j hj
    rw [hadj i hi j hj, hadj j hj i hi, sharesEdge_comm]
  refine ⟨?_, ?_⟩
  · intro i hi j hj
    have hi2 : i < mesh.n_vertices := hi
    have hj2 : j < mesh.n_vertices := hj
    by_cases hij : i = j
    · subst hij; rfl
    · have hji : ¬ j = i := fun h => hij h.symm
      rw [vertexLaplacian_coeff, vertexLaplacian_coeff, count_of_nodup _ (hnd i hi),
        count_of_nodup _ (hnd j hj)]
      by_cases hm : j ∈ mesh.vv i
      · simp [hi2, hj2, hij, hji, hm, (hsym i hi j hj).mp hm]
      · have hm2 : i ∉ mesh.vv j := fun h => hm ((hsym i hi j hj).mpr h)
        simp [hi2, hj2, hij, hji, hm, hm2]
  · intro x
    have hq : quadForm (vertexLaplacian mesh L) x = edgeEnergy mesh x := by
      unfold quadForm edgeEnergy
      have hr : (vertexLaplacian mesh L).rows = mesh.n_vertices := by
        rw [vertexLaplacian_entries]
      have hc : (vertexLaplacian mesh L).cols = mesh.n_vertices := by
        rw [vertexLaplacian_entries]
      rw [hr, hc]
      calc ∑ i in Finset.range mesh.n_vertices, ∑ j in Finset.range mesh.n_vertices,
              x i * ((vertexLaplacian mesh L).coeff i j : K) * x j
          = ∑ i in Finset.range mesh.n_vertices, ∑ j in Finset.range mesh.n_vertices,
              (if j ∈ mesh.vv i then (1 : K) else 0) * x i * (x i - x j) := by
            refine Finset.sum_congr rfl (fun i hi => ?_)
            have hi2 := Finset.mem_range.mp hi
            exact quadForm_row mesh L x i hi2 (hnd i hi2) (hlt i hi2)
        _ = ∑ i in Finset.range mesh.n_vertices, ∑ j in Finset.range mesh.n_vertices,
              (if i < j then
                (if j ∈ mesh.vv i then (1 : K) else 0) * x i * (x i - x j)
                  + (if i ∈ mesh.vv j then (1 : K) else 0) * x j * (x j - x i)
               else 0) := by
            exact sum_sum_fold_upper mesh.n_vertices
              (fun i j => (if j ∈ mesh.vv i then (1 : K) else 0) * x i * (x i - x j))
              (fun i => by simp)
        _ = ∑ i in Finset.range mesh.n_vertices,
              ∑ j in (Finset.range mesh.n_vertices).filter (fun j => i < j ∧ j ∈ mesh.vv i),
                (x i - x j) ^ 2 := by
            refine Finset.sum_congr rfl (fun i hi => ?_)
            rw [Finset.sum_filter]
            refine Finset.sum_congr rfl (fun j hj => ?_)
            have hi2 := Finset.mem_range.mp hi
            have hj2 := Finset.mem_range.mp hj
            by_cases hlt2 : i < j
            · by_cases hm : j ∈ mesh.vv i
              · simp only [hlt2, hm, (hsym i hi2 j hj2).mp hm, if_true, and_self]
                ring
              · have hm2 : i ∉ mesh.vv j := fun h => hm ((hsym i hi2 j hj2).mpr h)
                simp [hlt2, hm, hm2]
            · simp [hlt2]
    refine ⟨hq, ?_⟩
    rw [hq]
    unfold edgeEnergy
    exact Finset.sum_nonneg (fun i _ => Finset.sum_nonneg (fun j _ => sq_nonneg _))

/-- C3 on the tetrahedron with `x = (0, 1, 2, 3)`: the hypotheses hold, the matrix
is symmetric and `xᵀ L x` is the edge sum `1 + 4 + 9 + 1 + 4 + 1 = 20`. -/
theorem vertexLaplacian_symmetric_psd_witness :
    ((∀ i < numVertices tetrahedron, (tetrahedron.vv i).Nodup)
        ∧ (∀ i < numVertices tetrahedron, ∀ j ∈ tetrahedron.vv i, j < numVertices tetrahedron)
        ∧ (∀ i < numVertices tetrahedron, ∀ j < numVertices tetrahedron,
            (j ∈ tetrahedron.vv i ↔ sharesEdge tetrahedron i j = true)))
      ∧ ((∀ i < numVertices tetrahedron, ∀ j < numVertices tetrahedron,
            (vertexLaplacian tetrahedron ⟨0, 0, []⟩).coeff i j
              = (vertexLaplacian tetrahedron ⟨0, 0, []⟩).coeff j i)
          ∧ ∀ x : Nat → ℤ,
              quadForm (vertexLaplacian tetrahedron ⟨0, 0, []⟩) x = edgeEnergy tetrahedron x
                ∧ 0 ≤ quadForm (vertexLaplacian tetrahedron ⟨0, 0, []⟩) x)
      ∧ edgeEnergy tetrahedron (fun i => (i : ℤ)) = 20 :=
  ⟨⟨by decide, by decide, by decide⟩,
    vertexLaplacian_symmetric_psd tetrahedron ⟨0, 0, []⟩ (by decide) (by decide) (by decide),
    by decide⟩

/-! ## Claims on `ImportLabelDataCommand::doImp` -/

/-- C4: when the label file opens and holds exactly `numFaces` integer tokens,
each fitting an `int`, `doImp` hands `setFaceLabelData` a vector of length
`numFaces` whose entry `f` is the token `f`: the token sequence itself. -/
theorem doImp_exact_count (dialog : String) (file : String → Option (List Int))
    (mesh : MeshData) (inputFile : String) (ts : List Int)
    (hpath : chosenPath inputFile dialog ≠ "")
    (hfile : file (chosenPath inputFile dialog) = some ts)
    (hfit : ∀ t ∈ ts, intMin ≤ t ∧ t ≤ intMax)
    (hlen : ts.length = numFaces mesh) :
    (doImp dialog file mesh inputFile).call = some ts
      ∧ ∀ labels, labelsAfter labels (doImp dialog file mesh inputFile) = ts := by
  have hlen2 : ts.length = mesh.n_faces := hlen
  have hfit2 : ∀ t ∈ ts.take mesh.n_faces, intMin ≤ t ∧ t ≤ intMax :=
    fun t ht => hfit t (List.mem_of_mem_take ht)
  have hc : doImp dialog file mesh inputFile = ⟨"", some ts⟩ := by
    rw [doImp_call dialog file mesh inputFile hpath, hfile]
    simp only [fill, IfStream.ofFile, Bool.false_eq_true, if_false]
    rw [fillTokens_of_fit ts mesh.n_faces hfit2]
    simp [← hlen2]
  refine ⟨by rw [hc], ?_⟩
  intro labels
  rw [hc]
  rfl

/-- C4 on a 4-face mesh with the tokens `[5, 5, 5, 5]`: every face gets label 5. -/
theorem doImp_exact_count_witness :
    (chosenPath "" "labels.dat" ≠ ""
        ∧ oneFile [5, 5, 5, 5] (chosenPath "" "labels.dat") = some [5, 5, 5, 5]
        ∧ (∀ t ∈ [5, 5, 5, (5 : Int)], intMin ≤ t ∧ t ≤ intMax)
        ∧ [5, 5, 5, (5 : Int)].length = numFaces tetrahedron)
      ∧ ((doImp "labels.dat" (oneFile [5, 5, 5, 5]) tetrahedron "").call = some [5, 5, 5, 5]
        ∧ ∀ labels,
            labelsAfter labels (doImp "labels.dat" (oneFile [5, 5, 5, 5]) tetrahedron "")
              = [5, 5, 5, 5]) :=
  ⟨⟨by decide, by decide, by decide, by decide⟩,
    doImp_exact_count "labels.dat" (oneFile [5, 5, 5, 5]) tetrahedron "" [5, 5, 5, 5]
      (by decide) (by decide) (by decide) (by decide)⟩

/-- C5, as the code has it: whatever the number of tokens in the opened file, the
first `numFaces` of them fitting an `int`, `doImp` raises no error and hands
`setFaceLabelData` a vector of length `numFaces`: the first `numFaces` tokens,
followed by zeros when the file is short; tokens past the first `numFaces` are
ignored. -/
theorem doImp_any_count (dialog : String) (file : String → Option (List Int))
    (mesh : MeshData) (inputFile : String) (ts : List Int)
    (hpath : chosenPath inputFile dialog ≠ "")
    (hfile : file (chosenPath inputFile dialog) = some ts)
    (hfit : ∀ t ∈ ts.take (numFaces mesh), intMin ≤ t ∧ t ≤ intMax) :
    (doImp dialog file mesh inputFile).call
        = some (ts.take (numFaces mesh) ++ List.replicate (numFaces mesh - ts.length) 0)
      ∧ (ts.take (numFaces mesh) ++ List.replicate (numFaces mesh - ts.length) 0).length
          = numFaces mesh
      ∧ ∀ labels, labelsAfter labels (doImp dialog file mesh inputFile)
          = ts.take (numFaces mesh) ++ List.replicate (numFaces mesh - ts.length) 0 := by
  have hc : doImp dialog file mesh inputFile
      = ⟨"", some (ts.take (numFaces mesh) ++ List.replicate (numFaces mesh - ts.length) 0)⟩ := by
    rw [doImp_call dialog file mesh inputFile hpath, hfile]
    simp only [fill, IfStream.ofFile, Bool.false_eq_true, if_false]
    rw [fillTokens_of_fit ts mesh.n_faces hfit]
    rfl
  refine ⟨by rw [hc], ?_, ?_⟩
  · simp only [List.length_append, List.length_take, List.length_replicate]
    omega
  · intro labels
    rw [hc]
    rfl

/-- C5 on a 4-face mesh: a 3-token file gives `[5, 5, 5, 0]`, a 5-token file
`[5, 6, 7, 8]`. -/
theorem doImp_any_count_witness :
    (chosenPath "" "labels.dat" ≠ ""
        ∧ oneFile [5, 5, 5] (chosenPath "" "labels.dat") = some [5, 5, 5]
        ∧ ∀ t ∈ [5, 5, (5 : Int)].take (numFaces tetrahedron), intMin ≤ t ∧ t ≤ intMax)
      ∧ ((doImp "labels.dat" (oneFile [5, 5, 5]) tetrahedron "").call
            = some ([5, 5, 5].take (numFaces tetrahedron)
                ++ List.replicate (numFaces tetrahedron - [5, 5, (5 : Int)].length) 0)
          ∧ ([5, 5, (5 : Int)].take (numFaces tetrahedron)
                ++ List.replicate (numFaces tetrahedron - [5, 5, (5 : Int)].length) 0).length
              = numFaces tetrahedron
          ∧ ∀ labels, labelsAfter labels (doImp "labels.dat" (oneFile [5, 5, 5]) tetrahedron "")
              = [5, 5, 5].take (numFaces tetrahedron)
                ++ List.replicate (numFaces tetrahedron - [5, 5, (5 : Int)].length) 0)
      ∧ (doImp "labels.dat" (oneFile [5, 6, 7, 8, 9]) tetrahedron "").call = some [5, 6, 7, 8] :=
  ⟨⟨by decide, by decide, by decide⟩,
    doImp_any_count "labels.dat" (oneFile [5, 5, 5]) tetrahedron "" [5, 5, 5]
      (by decide) (by decide) (by decide),
    by decide⟩

/-- C5 fails as stated: a 3-token file on a 4-face mesh is not rejected;
`setFaceLabelData` is called with `[5, 5, 5, 0]` and the labels held before are
replaced. -/
theorem doImp_short_source_not_rejected :
    [5, 5, (5 : Int)].length ≠ numFaces tetrahedron
      ∧ (doImp "labels.dat" (oneFile [5, 5, 5]) tetrahedron "").call = some [5, 5, 5, 0]
      ∧ labelsAfter [1, 2, 3, 4] (doImp "labels.dat" (oneFile [5, 5, 5]) tetrahedron "")
          ≠ [1, 2, 3, 4] := by
  decide

/-- C6, as the code has it: `doImp` makes no call to `setFaceLabelData` exactly
when no path is chosen, and the labels are then unchanged; with a path chosen, a
file that cannot be opened or holds no token has `setFaceLabelData` called with
`numFaces` zeros. -/
theorem doImp_noop_iff_no_path (dialog : String) (file : String → Option (List Int))
    (mesh : MeshData) (inputFile : String) :
    ((doImp dialog file mesh inputFile).call = none ↔ chosenPath inputFile dialog = "")
      ∧ (chosenPath inputFile dialog = "" →
          ∀ labels, labelsAfter labels (doImp dialog file mesh inputFile) = labels)
      ∧ (chosenPath inputFile dialog ≠ "" →
          (file (chosenPath inputFile dialog) = none
            ∨ file (chosenPath inputFile dialog) = some []) →
          (doImp dialog file mesh inputFile).call
            = some (List.replicate (numFaces mesh) 0)) := by
  have hnone : chosenPath inputFile dialog = "" →
      doImp dialog file mesh inputFile = ⟨"", none⟩ := by
    intro h
    unfold chosenPath at h
    unfold doImp
    simp only [h, if_true]
  refine ⟨⟨?_, ?_⟩, ?_, ?_⟩
  · intro hcall
    by_contra hne
    rw [doImp_call dialog file mesh inputFile hne] at hcall
    exact absurd hcall (by simp)
  · intro h
    rw [hnone h]
  · intro h labels
    rw [hnone h]
    rfl
  · intro hne hfile
    rw [doImp_call dialog file mesh inputFile hne]
    rcases hfile with h | h <;> simp [h, fill, fillTokens_nil, IfStream.ofFile, numFaces]

/-- C6 on a 4-face mesh: a cancelled dialog leaves the labels `[7, 7, 7, 7]`
alone; an empty file has `setFaceLabelData` called with `[0, 0, 0, 0]`. -/
theorem doImp_noop_iff_no_path_witness :
    chosenPath "" "" = ""
      ∧ (doImp "" (oneFile []) tetrahedron "").call = none
      ∧ labelsAfter [7, 7, 7, 7] (doImp "" (oneFile []) tetrahedron "") = [7, 7, 7, 7]
      ∧ chosenPath "" "labels.dat" ≠ ""
      ∧ (doImp "labels.dat" (oneFile []) tetrahedron "").call
          = some (List.replicate (numFaces tetrahedron) 0) :=
  ⟨by decide,
    (doImp_noop_iff_no_path "" (oneFile []) tetrahedron "").1.mpr (by decide),
    (doImp_noop_iff_no_path "" (oneFile []) tetrahedron "").2.1 (by decide) [7, 7, 7, 7],
    by decide,
    (doImp_noop_iff_no_path "labels.dat" (oneFile []) tetrahedron "").2.2 (by decide)
      (Or.inr (by decide))⟩

/-- C6 fails as stated: with a path chosen, a file that cannot be opened does not
make `doImp` a no-op; `setFaceLabelData` is called with `[0, 0, 0, 0]` and the
labels `[7, 7, 7, 7]` held before are replaced. -/
theorem doImp_unopened_file_not_noop :
    oneFile [] "missing.dat" = none
      ∧ (doImp "missing.dat" (oneFile []) tetrahedron "").call = some [0, 0, 0, 0]
      ∧ labelsAfter [7, 7, 7, 7] (doImp "missing.dat" (oneFile []) tetrahedron "")
          ≠ [7, 7, 7, 7] := by
  decide

/-! ## Lemmas on `cleanIsolatedFaces` -/

theorem foldl_count_eq_length (l : List Nat) (n : Nat) :
    l.foldl (fun (n : Nat) _ => n + 1) n = n + l.length := by
  induction l generalizing n with
  | nil => rfl
  | cons a t ih => simp only [List.foldl_cons, ih, List.length_cons]; omega

theorem foldl_and_eq_all (g : Nat → Bool) (l : List Nat) (b : Bool) :
    l.foldl (fun (isolated : Bool) (vID : Nat) => isolated && g vID) b = (b && l.all g) := by
  induction l generalizing b with
  | nil => simp
  | cons a t ih => simp only [List.foldl_cons, ih, List.all_cons, Bool.and_assoc]

theorem foldl_report_eq_filter (p : Nat → Bool) (l : List Nat) (acc : List Nat) :
    l.foldl (fun (reported : List Nat) (f : Nat) => if p f then reported ++ [f] else reported) acc
      = acc ++ l.filter p := by
  induction l generalizing acc with
  | nil => simp
  | cons a t ih =>
    simp only [List.foldl_cons, ih, List.filter_cons]
    by_cases h : p a = true <;> simp [h]

/-- The face loop body in closed form. -/
theorem reportsFace_iff (norm : Point → ℚ) (mesh : MeshData) (f : Nat) :
    reportsFace norm mesh f = true
      ↔ mesh.ff f = [] ∧ ∀ v ∈ mesh.fv f, closestVertexID norm mesh v defaultTh ≠ v := by
  unfold reportsFace
  simp only [foldl_count_eq_length, Nat.zero_add]
  rw [foldl_and_eq_all (fun vID => decide (vID ≠ closestVertexID norm mesh vID defaultTh))]
  by_cases h : mesh.ff f = []
  · simp only [h, List.length_nil, gt_iff_lt, lt_self_iff_false, if_false, Bool.true_and,
      List.all_eq_true, decide_eq_true_eq, true_and]
    exact ⟨fun H v hv e => H v hv e.symm, fun H v hv e => H v hv e.symm⟩
  · have hpos : 0 < (mesh.ff f).length := List.length_pos.mpr h
    simp [hpos, h]

theorem mem_cleanIsolatedFaces (norm : Point → ℚ) (mesh : MeshData) (f : Nat) :
    f ∈ cleanIsolatedFaces norm mesh ↔ f < mesh.n_faces ∧ reportsFace norm mesh f = true := by
  unfold cleanIsolatedFaces
  rw [foldl_report_eq_filter]
  simp [List.mem_filter, List.mem_range]

theorem searchInv_foldl (norm : Point → ℚ) (mesh : MeshData) (vID : Nat) (l : List Nat) :
    ∀ (done : List Nat) (st : ℚ × Nat), SearchInv norm mesh vID done st →
      SearchInv norm mesh vID (done ++ l)
        (l.foldl
          (fun (st : ℚ × Nat) (v : Nat) =>
            if v = vID then st
            else
              let q := mesh.point v
              let d := norm (q.sub (mesh.point vID))
              if d < st.1 then (d, v) else st)
          st) := by
  induction l with
  | nil => intro done st h; simpa using h
  | cons a t ih =>
    intro done st h
    rw [List.foldl_cons]
    have hstep : SearchInv norm mesh vID (done ++ [a])
        (if a = vID then st
          else
            let q := mesh.point a
            let d := norm (q.sub (mesh.point vID))
            if d < st.1 then (d, a) else st) := by
      obtain ⟨hle, hcase, hmin⟩ := h
      by_cases ha : a = vID
      · simp only [ha, if_true]
        refine ⟨hle, ?_, ?_⟩
        · rcases hcase with hc | ⟨h1, h2, h3⟩
          · exact Or.inl hc
          · exact Or.inr ⟨h1, List.mem_append_left _ h2, h3⟩
        · intro u hu hne
          rcases List.mem_append.mp hu with hu | hu
          · exact hmin u hu hne
          · simp only [List.mem_singleton] at hu
            exact absurd hu hne
      · simp only [ha, if_false]
        by_cases hd : norm ((mesh.point a).sub (mesh.point vID)) < st.1
        · simp only [hd, if_true]
          refine ⟨le_trans (le_of_lt hd) hle, Or.inr ⟨ha, by simp, rfl⟩, ?_⟩
          intro u hu hne
          rcases List.mem_append.mp hu with hu | hu
          · exact le_trans (le_of_lt hd) (hmin u hu hne)
          · simp only [List.mem_singleton] at hu
            subst hu
            exact le_refl _
        · simp only [hd, if_false]
          refine ⟨hle, ?_, ?_⟩
          · rcases hcase with hc | ⟨h1, h2, h3⟩
            · exact Or.inl hc
            · exact Or.inr ⟨h1, List.mem_append_left _ h2, h3⟩
          · intro u hu hne
            rcases List.mem_append.mp hu with hu | hu
            · exact hmin u hu hne
            · simp only [List.mem_singleton] at hu
              subst hu
              exact not_lt.mp hd
    have h2 := ih (done ++ [a]) _ hstep
    simpa using h2

/-- What `closestVertexID` returns, for a threshold not above the initial `1e10`:
`vID` itself exactly when no other vertex lies below the threshold; otherwise
another vertex, below the threshold and nearest to `vID` among all others. -/
theorem closestVertexID_spec (norm : Point → ℚ) (mesh : MeshData) (vID : Nat) (th : ℚ)
    (hth : th ≤ 10000000000) :
    (closestVertexID norm mesh vID th = vID
        ↔ ∀ u < mesh.n_vertices, u ≠ vID → th ≤ distTo norm mesh vID u)
      ∧ (closestVertexID norm mesh vID th ≠ vID →
          closestVertexID norm mesh vID th < mesh.n_vertices
            ∧ distTo norm mesh vID (closestVertexID norm mesh vID th) < th
            ∧ ∀ u < mesh.n_vertices, u ≠ vID →
                distTo norm mesh vID (closestVertexID norm mesh vID th)
                  ≤ distTo norm mesh vID u) := by
  have hinv := searchInv_foldl norm mesh vID (List.range mesh.n_vertices) []
    (10000000000, vID) ⟨le_refl _, Or.inl ⟨rfl, rfl⟩, by simp⟩
  simp only [List.nil_append] at hinv
  unfold closestVertexID
  simp only
  generalize (List.range mesh.n_vertices).foldl
    (fun (st : ℚ × Nat) (v : Nat) =>
      if v = vID then st
      else
        let q := mesh.point v
        let d := norm (q.sub (mesh.point vID))
        if d < st.1 then (d, v) else st)
    (10000000000, vID) = st at hinv ⊢
  obtain ⟨hle, hcase, hmin⟩ := hinv
  have hmin2 : ∀ u < mesh.n_vertices, u ≠ vID → st.1 ≤ distTo norm mesh vID u :=
    fun u hu hne => hmin u (List.mem_range.mpr hu) hne
  by_cases hlt : st.1 < th
  · simp only [hlt, if_true]
    rcases hcase with ⟨_, h2⟩ | ⟨h1, h2, h3⟩
    · rw [h2] at hlt
      exact absurd hlt (not_lt.mpr hth)
    · refine ⟨⟨fun h => absurd h h1, fun H => ?_⟩, fun _ => ⟨List.mem_range.mp h2, ?_, ?_⟩⟩
      · have := H st.2 (List.mem_range.mp h2) h1
        rw [← h3] at this
        exact absurd hlt (not_lt.mpr this)
      · rw [← h3]; exact hlt
      · intro u hu hne
        rw [← h3]
        exact hmin2 u hu hne
  · simp only [hlt, if_false]
    refine ⟨⟨fun _ u hu hne => le_trans (not_lt.mp hlt) (hmin2 u hu hne), fun _ => trivial⟩,
      fun h => absurd rfl h⟩

/-! ## Claims on `Mesh::cleanIsolatedFaces` -/

/-- C7, as the code has it: a face is reported exactly when it has no
edge-adjacent face and every one of its vertices resolves, through
`closestVertexID`, to a different vertex id.  A reported face therefore has no
edge-adjacent face; the converse needs the second condition. -/
theorem cleanIsolatedFaces_reports_iff (norm : Point → ℚ) (mesh : MeshData) (f : Nat) :
    f ∈ cleanIsolatedFaces norm mesh
      ↔ f < numFaces mesh ∧ mesh.ff f = []
          ∧ ∀ v ∈ mesh.fv f, closestVertexID norm mesh v defaultTh ≠ v := by
  rw [mem_cleanIsolatedFaces, reportsFace_iff]
  rfl

/-- C7 on the closed tetrahedron: no face is reported. -/
theorem cleanIsolatedFaces_reports_iff_witness :
    cleanIsolatedFaces euclidNorm tetrahedron = [] := by
  refine List.eq_nil_iff_forall_not_mem.mpr (fun f hf => ?_)
  obtain ⟨hlt, hff, _⟩ := (cleanIsolatedFaces_reports_iff euclidNorm tetrahedron f).mp hf
  have hlt4 : f < 4 := hlt
  interval_cases f <;> simp [tetrahedron] at hff

/-- C7 fails as stated: the single face of the 3-4-5 triangle has no
edge-adjacent face and is not reported; the distances used are the exact
Euclidean ones. -/
theorem cleanIsolatedFaces_single_triangle_not_reported :
    0 < numFaces oneTriangle ∧ oneTriangle.ff 0 = []
      ∧ 0 ∉ cleanIsolatedFaces euclidNorm oneTriangle
      ∧ euclidExactOn oneTriangle := by
  decide!

/-- C10, as the code has it: a face with no edge-adjacent face is reported exactly
when every one of its vertices resolves to a different vertex id, where
`closestVertexID` returns the vertex itself exactly when no other vertex lies
below the threshold `1e-7`, and otherwise another vertex below the threshold
that is nearest among all others. -/
theorem cleanIsolatedFaces_candidate_iff (norm : Point → ℚ) (mesh : MeshData) (f : Nat)
    (hf : f < numFaces mesh) (hff : mesh.ff f = []) :
    (f ∈ cleanIsolatedFaces norm mesh
        ↔ ∀ v ∈ mesh.fv f, closestVertexID norm mesh v defaultTh ≠ v)
      ∧ ∀ v,
          (closestVertexID norm mesh v defaultTh = v
            ↔ ∀ u < numVertices mesh, u ≠ v → defaultTh ≤ distTo norm mesh v u)
          ∧ (closestVertexID norm mesh v defaultTh ≠ v →
              closestVertexID norm mesh v defaultTh < numVertices mesh
                ∧ distTo norm mesh v (closestVertexID norm mesh v defaultTh) < defaultTh
                ∧ ∀ u < numVertices mesh, u ≠ v →
                    distTo norm mesh v (closestVertexID norm mesh v defaultTh)
                      ≤ distTo norm mesh v u) := by
  refine ⟨?_, fun v => closestVertexID_spec norm mesh v defaultTh (by norm_num [defaultTh])⟩
  rw [mem_cleanIsolatedFaces, reportsFace_iff]
  have hf2 : f < mesh.n_faces := hf
  simp [hf2, hff]

/-- C10 on the doubled triangle: face 0 has no edge-adjacent face, its vertices
0, 1, 2 resolve to 3, 4, 5, and it is reported; the distances used are the exact
Euclidean ones. -/
theorem cleanIsolatedFaces_candidate_iff_witness :
    (0 < numFaces doubledTriangle ∧ doubledTriangle.ff 0 = [])
      ∧ (∀ v ∈ doubledTriangle.fv 0,
          closestVertexID euclidNorm doubledTriangle v defaultTh ≠ v)
      ∧ 0 ∈ cleanIsolatedFaces euclidNorm doubledTriangle
      ∧ euclidExactOn doubledTriangle :=
  ⟨by decide, by decide!,
    (cleanIsolatedFaces_candidate_iff euclidNorm doubledTriangle 0 (by decide) (by decide)).1.mpr
      (by decide!),
    by decide!⟩

/-- C10 fails as stated: face 0 of the two triangles has no edge-adjacent face and
its vertex 0 resolves to the different vertex 3, yet vertex 1 resolves to itself
and the face is not reported; the distances used are the exact Euclidean ones. -/
theorem cleanIsolatedFaces_one_vertex_not_enough :
    twoTriangles.ff 0 = []
      ∧ 0 ∈ twoTriangles.fv 0
      ∧ closestVertexID euclidNorm twoTriangles 0 defaultTh = 3
      ∧ closestVertexID euclidNorm twoTriangles 1 defaultTh = 1
      ∧ 0 ∉ cleanIsolatedFaces euclidNorm twoTriangles
      ∧ euclidExactOn twoTriangles := by
  decide!

/-! ## Lemmas on the dense tables -/

theorem fillRow_spec (g : Nat → ℚ) (f : Nat) (V : MatrixXd) :
    ((List.range 3).foldl (fun (V : MatrixXd) (ci : Nat) => V.set f ci (g ci)) V).rows = V.rows
      ∧ ((List.range 3).foldl (fun (V : MatrixXd) (ci : Nat) => V.set f ci (g ci)) V).cols = V.cols
      ∧ ∀ a b,
          ((List.range 3).foldl (fun (V : MatrixXd) (ci : Nat) => V.set f ci (g ci)) V).coeff a b
            = if a = f ∧ b < 3 then g b else V.coeff a b := by
  have h3 : List.range 3 = [0, 1, 2] := by decide
  rw [h3]
  refine ⟨rfl, rfl, ?_⟩
  intro a b
  simp only [List.foldl_cons, List.foldl_nil, MatrixXd.set]
  by_cases ha : a = f
  · by_cases h2 : b = 2
    · subst h2; simp [ha]
    · by_cases h1 : b = 1
      · subst h1; simp [ha]
      · by_cases h0 : b = 0
        · subst h0; simp [ha]
        · have hb : ¬ b < 3 := by omega
          simp [ha, h0, h1, h2, hb]
  · simp [ha]

theorem fillRows_spec (h : Nat → Point) (n : Nat) (V : MatrixXd) :
    ((List.range n).foldl
        (fun (V : MatrixXd) (v : Nat) =>
          (List.range 3).foldl (fun (V : MatrixXd) (ci : Nat) => V.set v ci ((h v).get ci)) V)
        V).rows = V.rows
      ∧ ((List.range n).foldl
        (fun (V : MatrixXd) (v : Nat) =>
          (List.range 3).foldl (fun (V : MatrixXd) (ci : Nat) => V.set v ci ((h v).get ci)) V)
        V).cols = V.cols
      ∧ ∀ a b,
          ((List.range n).foldl
            (fun (V : MatrixXd) (v : Nat) =>
              (List.range 3).foldl (fun (V : MatrixXd) (ci : Nat) => V.set v ci ((h v).get ci)) V)
            V).coeff a b
            = if a < n ∧ b < 3 then (h a).get b else V.coeff a b := by
  induction n with
  | zero => simp
  | succ n ih =>
    have hs : List.range (n + 1) = List.range n ++ [n] := List.range_succ n
    rw [hs, List.foldl_append, List.foldl_cons, List.foldl_nil]
    obtain ⟨hr, hc, hco⟩ := ih
    obtain ⟨hr2, hc2, hco2⟩ := fillRow_spec (fun ci => (h n).get ci) n
      ((List.range n).foldl
        (fun (V : MatrixXd) (v : Nat) =>
          (List.range 3).foldl (fun (V : MatrixXd) (ci : Nat) => V.set v ci ((h v).get ci)) V)
        V)
    refine ⟨hr2.trans hr, hc2.trans hc, ?_⟩
    intro a b
    rw [hco2, hco]
    by_cases han : a = n
    · subst han
      by_cases hb : b < 3 <;> simp [hb]
    · have h1 : a < n + 1 ↔ a < n := by omega
      simp [han, h1]

theorem points_spec (mesh : MeshData) (W : MatrixXd) :
    (points mesh W).rows = mesh.n_vertices ∧ (points mesh W).cols = 3
      ∧ ∀ a b, (points mesh W).coeff a b
          = if a < mesh.n_vertices ∧ b < 3 then (mesh.point a).get b else W.coeff a b := by
  obtain ⟨hr, hc, hco⟩ :=
    fillRows_spec mesh.point mesh.n_vertices (W.resize (numVertices mesh) 3)
  exact ⟨hr, hc, hco⟩

theorem faceCenters_spec (uninit : Nat → Point) (mesh : MeshData) (W : MatrixXd) :
    (faceCenters uninit mesh W).rows = mesh.n_faces ∧ (faceCenters uninit mesh W).cols = 3
      ∧ ∀ a b, (faceCenters uninit mesh W).coeff a b
          = if a < mesh.n_faces ∧ b < 3 then (faceCenter uninit mesh a).get b
            else W.coeff a b := by
  obtain ⟨hr, hc, hco⟩ :=
    fillRows_spec (faceCenter uninit mesh) mesh.n_faces (W.resize (numFaces mesh) 3)
  exact ⟨hr, hc, hco⟩

theorem buildPoint_eq (p : Point) (V : MatrixXd) (v : Nat) :
    (List.range 3).foldl (fun (p : Point) (ci : Nat) => p.set ci (toBinary32 (V.coeff v ci))) p
      = ⟨toBinary32 (V.coeff v 0), toBinary32 (V.coeff v 1), toBinary32 (V.coeff v 2)⟩ := by
  have h3 : List.range 3 = [0, 1, 2] := by decide
  rw [h3]
  simp [Point.set]

theorem setPointsLoop_spec (P : Nat → Point) (n : Nat) (mesh : MeshData) :
    ((List.range n).foldl
        (fun (mesh : MeshData) (v : Nat) =>
          { mesh with point := fun u => if u = v then P v else mesh.point u })
        mesh)
      = { mesh with point := fun u => if u < n then P u else mesh.point u } := by
  induction n with
  | zero => simp
  | succ n ih =>
    have hs : List.range (n + 1) = List.range n ++ [n] := List.range_succ n
    rw [hs, List.foldl_append, ih]
    simp only [List.foldl_cons, List.foldl_nil]
    congr 1
    funext u
    by_cases hu : u = n
    · subst hu; simp
    · have h1 : u < n + 1 ↔ u < n := by omega
      simp [hu, h1]

theorem setPoints_eq (uninit : Nat → Point) (mesh : MeshData) (V : MatrixXd) :
    setPoints uninit mesh V
      = { mesh with point := fun u =>
            if u < mesh.n_vertices then
              ⟨toBinary32 (V.coeff u 0), toBinary32 (V.coeff u 1), toBinary32 (V.coeff u 2)⟩
            else mesh.point u } := by
  unfold setPoints
  simp only [buildPoint_eq]
  exact setPointsLoop_spec
    (fun v => ⟨toBinary32 (V.coeff v 0), toBinary32 (V.coeff v 1), toBinary32 (V.coeff v 2)⟩)
    mesh.n_vertices mesh

theorem faceCenterLoop_eq (mesh : MeshData) (l : List Nat) (c : Point) (k : ℚ) :
    l.foldl
        (fun (st : Point × ℚ) (v : Nat) =>
          let p := mesh.point v
          (st.1.add p, st.2 + 1))
        (c, k)
      = ((l.map mesh.point).foldl Point.add c, k + (l.length : ℚ)) := by
  induction l generalizing c k with
  | nil => simp
  | cons a t ih =>
    simp only [List.foldl_cons, List.map_cons, List.length_cons]
    rw [ih]
    push_cast
    congr 1
    ring

/-- The centre written for a face, whatever `center` held at first: that content
plus the vertex positions, divided by their number; the content itself for a face
without vertices. -/
theorem faceCenter_eq (uninit : Nat → Point) (mesh : MeshData) (f : Nat) :
    faceCenter uninit mesh f
      = if mesh.fv f = [] then uninit f
        else (((mesh.fv f).map mesh.point).foldl Point.add (uninit f)).divScalar
          ((mesh.fv f).length : ℚ) := by
  unfold faceCenter
  rw [faceCenterLoop_eq]
  by_cases h : mesh.fv f = []
  · simp [h]
  · have hpos : (0 : ℚ) < ((mesh.fv f).length : ℚ) := by
      exact_mod_cast List.length_pos.mpr h
    simp [h, hpos]

/-- Had `center` been set to the origin, `faceCenters` would write the arithmetic
mean of the vertex positions for a face with vertices and the origin for a face
without. -/
theorem faceCenters_of_origin (mesh : MeshData) (W : MatrixXd) (f ci : Nat)
    (hf : f < mesh.n_faces) (hci : ci < 3) :
    (faceCenters (fun _ => Point.origin) mesh W).coeff f ci
      = if mesh.fv f = [] then 0 else (faceMean mesh f).get ci := by
  rw [(faceCenters_spec (fun _ => Point.origin) mesh W).2.2 f ci, faceCenter_eq]
  by_cases h : mesh.fv f = []
  · simp [hf, hci, h, Point.origin, Point.get]
  · simp [hf, hci, h, faceMean]

/-! ## Lemmas on the conversion to `float` -/

theorem roundHalfEven_nearest (r : ℚ) (n : ℤ) :
    |(roundHalfEven r : ℚ) - r| ≤ |(n : ℚ) - r| := by
  have hf1 : ((⌊r⌋ : ℤ) : ℚ) ≤ r := Int.floor_le r
  have hf2 : r < ((⌊r⌋ : ℤ) : ℚ) + 1 := Int.lt_floor_add_one r
  have h1 := le_abs_self ((n : ℚ) - r)
  have h2 := neg_abs_le ((n : ℚ) - r)
  have hn : (n : ℚ) ≤ ((⌊r⌋ : ℤ) : ℚ) ∨ ((⌊r⌋ : ℤ) : ℚ) + 1 ≤ (n : ℚ) := by
    rcases le_or_lt n ⌊r⌋ with h | h
    · left; exact_mod_cast h
    · right; exact_mod_cast h
  unfold roundHalfEven
  split_ifs with c1 c2 c3
  · rw [abs_le]; constructor <;> rcases hn with h | h <;> linarith
  · push_cast; rw [abs_le]; constructor <;> rcases hn with h | h <;> linarith
  · have c1' := not_lt.mp c1
    have c2' := not_lt.mp c2
    rw [abs_le]; constructor <;> rcases hn with h | h <;> linarith
  · have c1' := not_lt.mp c1
    have c2' := not_lt.mp c2
    push_cast; rw [abs_le]; constructor <;> rcases hn with h | h <;> linarith

theorem roundHalfEven_err (r : ℚ) : |(roundHalfEven r : ℚ) - r| ≤ 1 / 2 := by
  have hf1 : ((⌊r⌋ : ℤ) : ℚ) ≤ r := Int.floor_le r
  have hf2 : r < ((⌊r⌋ : ℤ) : ℚ) + 1 := Int.lt_floor_add_one r
  have ha := roundHalfEven_nearest r ⌊r⌋
  have hb := roundHalfEven_nearest r (⌊r⌋ + 1)
  rw [abs_of_nonpos (by linarith : ((⌊r⌋ : ℤ) : ℚ) - r ≤ 0)] at ha
  push_cast at hb
  rw [abs_of_nonneg (by linarith : (0 : ℚ) ≤ ((⌊r⌋ : ℤ) : ℚ) + 1 - r)] at hb
  linarith

theorem roundHalfEven_le (r : ℚ) (N : ℤ) (h : r ≤ (N : ℚ)) : roundHalfEven r ≤ N := by
  have he := (abs_le.mp (roundHalfEven_err r)).2
  have h1 : ((roundHalfEven r : ℤ) : ℚ) < ((N + 1 : ℤ) : ℚ) := by push_cast; linarith
  have h2 : roundHalfEven r < N + 1 := by exact_mod_cast h1
  omega

theorem le_roundHalfEven (r : ℚ) (N : ℤ) (h : (N : ℚ) ≤ r) : N ≤ roundHalfEven r := by
  have he := (abs_le.mp (roundHalfEven_err r)).1
  have h1 : ((N - 1 : ℤ) : ℚ) < ((roundHalfEven r : ℤ) : ℚ) := by push_cast; linarith
  have h2 : N - 1 < roundHalfEven r := by exact_mod_cast h1
  omega

theorem ulpExp32_up (q : ℚ) :
    ∀ (fuel : Nat) (k : ℤ), 8388608 * (2 : ℚ) ^ k ≤ |q| →
      |q| < 16777216 * (2 : ℚ) ^ (k + (fuel : ℤ)) →
      k ≤ ulpExp32 fuel q k ∧ 8388608 * (2 : ℚ) ^ (ulpExp32 fuel q k) ≤ |q|
        ∧ |q| < 16777216 * (2 : ℚ) ^ (ulpExp32 fuel q k) := by
  intro fuel
  induction fuel with
  | zero =>
    intro k h1 h2
    simp only [ulpExp32]
    simp only [Nat.cast_zero, add_zero] at h2
    exact ⟨le_refl _, h1, h2⟩
  | succ fuel ih =>
    intro k h1 h2
    simp only [ulpExp32]
    by_cases hc : 16777216 * (2 : ℚ) ^ k ≤ |q|
    · simp only [hc, if_true]
      have e1 : (2 : ℚ) ^ (k + 1) = 2 ^ k * 2 := zpow_add_one₀ (by norm_num) k
      have e2 : k + ((fuel + 1 : ℕ) : ℤ) = (k + 1) + (fuel : ℤ) := by push_cast; ring
      rw [e2] at h2
      obtain ⟨a, b, c⟩ := ih (k + 1) (by rw [e1]; linarith) h2
      exact ⟨by omega, b, c⟩
    · have hc2 : ¬ (|q| < 8388608 * (2 : ℚ) ^ k ∧ -149 < k) := fun h => absurd h1 (not_le.mpr h.1)
      simp only [hc, hc2, if_false]
      exact ⟨le_refl _, h1, not_le.mp hc⟩

theorem ulpExp32_down (q : ℚ) :
    ∀ (fuel : Nat) (k : ℤ), |q| < 16777216 * (2 : ℚ) ^ k → -149 ≤ k → k - (fuel : ℤ) ≤ -149 →
      -149 ≤ ulpExp32 fuel q k ∧ ulpExp32 fuel q k ≤ k
        ∧ |q| < 16777216 * (2 : ℚ) ^ (ulpExp32 fuel q k)
        ∧ (8388608 * (2 : ℚ) ^ (ulpExp32 fuel q k) ≤ |q| ∨ ulpExp32 fuel q k = -149) := by
  intro fuel
  induction fuel with
  | zero =>
    intro k h1 h2 h3
    simp only [ulpExp32]
    simp only [Nat.cast_zero, sub_zero] at h3
    exact ⟨h2, le_refl _, h1, Or.inr (by omega)⟩
  | succ fuel ih =>
    intro k h1 h2 h3
    simp only [ulpExp32]
    have hc : ¬ 16777216 * (2 : ℚ) ^ k ≤ |q| := not_le.mpr h1
    simp only [hc, if_false]
    by_cases hc2 : |q| < 8388608 * (2 : ℚ) ^ k ∧ -149 < k
    · simp only [hc2, and_self, if_true]
      have e1 : (2 : ℚ) ^ (k - 1) = 2 ^ k * 2⁻¹ := zpow_sub_one₀ (by norm_num) k
      push_cast at h3
      obtain ⟨a, b, c, d⟩ := ih (k - 1) (by rw [e1]; linarith [hc2.1]) (by omega) (by omega)
      exact ⟨a, by omega, c, d⟩
    · simp only [hc2, if_false]
      refine ⟨h2, le_refl _, h1, ?_⟩
      by_cases h4 : |q| < 8388608 * (2 : ℚ) ^ k
      · right
        have : ¬ -149 < k := fun h => hc2 ⟨h4, h⟩
        omega
      · left; exact not_lt.mp h4

theorem ulpExp32_spec (q : ℚ) (hq : |q| ≤ fltMax) :
    -149 ≤ ulpExp32 400 q 0 ∧ ulpExp32 400 q 0 ≤ 104
      ∧ |q| < 16777216 * (2 : ℚ) ^ (ulpExp32 400 q 0)
      ∧ (8388608 * (2 : ℚ) ^ (ulpExp32 400 q 0) ≤ |q| ∨ ulpExp32 400 q 0 = -149) := by
  by_cases h : (16777216 : ℚ) ≤ |q|
  · have hfuel : |q| < 16777216 * (2 : ℚ) ^ ((0 : ℤ) + ((400 : ℕ) : ℤ)) := by
      have : fltMax < 16777216 * (2 : ℚ) ^ ((0 : ℤ) + ((400 : ℕ) : ℤ)) := by
        norm_num [fltMax]
      linarith
    obtain ⟨a, b, c⟩ := ulpExp32_up q 400 0 (by norm_num; linarith) hfuel
    refine ⟨by omega, ?_, c, Or.inl b⟩
    have h128 : (8388608 : ℚ) * 2 ^ (ulpExp32 400 q 0) < 8388608 * 2 ^ (105 : ℤ) := by
      have : fltMax < 8388608 * (2 : ℚ) ^ (105 : ℤ) := by norm_num [fltMax]
      linarith
    have h2 : (2 : ℚ) ^ (ulpExp32 400 q 0) < 2 ^ (105 : ℤ) := by linarith
    have h3 := (zpow_lt_zpow_iff_right₀ (by norm_num : (1 : ℚ) < 2)).mp h2
    omega
  · obtain ⟨a, b, c, d⟩ := ulpExp32_down q 400 0 (by norm_num; linarith [not_le.mp h])
      (by norm_num) (by norm_num)
    exact ⟨a, by omega, c, d⟩

theorem ulp32_pos (q : ℚ) : 0 < ulp32 q := zpow_pos (by norm_num) _

theorem toBinary32_sub (q : ℚ) :
    toBinary32 q - q = ((roundHalfEven (q / ulp32 q) : ℚ) - q / ulp32 q) * ulp32 q := by
  have hu := ne_of_gt (ulp32_pos q)
  unfold toBinary32
  field_simp

/-- No multiple of the spacing is nearer to `q` than `toBinary32 q`. -/
theorem toBinary32_nearest_multiple (q : ℚ) (n : ℤ) :
    |toBinary32 q - q| ≤ |(n : ℚ) * ulp32 q - q| := by
  have hu := ulp32_pos q
  have h2 : (n : ℚ) * ulp32 q - q = ((n : ℚ) - q / ulp32 q) * ulp32 q := by
    field_simp
  rw [toBinary32_sub, h2, abs_mul, abs_mul]
  exact mul_le_mul_of_nonneg_right (roundHalfEven_nearest _ n) (abs_nonneg _)

theorem toBinary32_err_ulp (q : ℚ) : |toBinary32 q - q| ≤ ulp32 q / 2 := by
  have hu := ulp32_pos q
  rw [toBinary32_sub, abs_mul, abs_of_pos hu]
  have := roundHalfEven_err (q / ulp32 q)
  nlinarith

theorem toBinary32_err (q : ℚ) (hq : |q| ≤ fltMax) :
    |toBinary32 q - q| ≤ max (|q| / 2 ^ 24) (1 / 2 ^ 150) := by
  have herr := toBinary32_err_ulp q
  obtain ⟨_, _, _, h | h⟩ := ulpExp32_spec q hq
  · refine le_trans herr (le_trans ?_ (le_max_left _ _))
    unfold ulp32
    norm_num
    linarith
  · refine le_trans herr (le_trans ?_ (le_max_right _ _))
    unfold ulp32
    rw [h]
    norm_num

theorem toBinary32_isBinary32 (q : ℚ) (hq : |q| ≤ fltMax) : IsBinary32 (toBinary32 q) := by
  obtain ⟨hk1, hk2, hlt, _⟩ := ulpExp32_spec q hq
  have hu : 0 < (2 : ℚ) ^ ulpExp32 400 q 0 := zpow_pos (by norm_num) _
  have hr : |q / ulp32 q| < 16777216 := by
    unfold ulp32
    rw [abs_div, abs_of_pos hu, div_lt_iff₀ hu]
    exact hlt
  have hr' := abs_lt.mp hr
  have hup : roundHalfEven (q / ulp32 q) ≤ 16777216 :=
    roundHalfEven_le _ 16777216 (by push_cast; linarith)
  have hlo : -16777216 ≤ roundHalfEven (q / ulp32 q) :=
    le_roundHalfEven _ (-16777216) (by push_cast; linarith)
  by_cases hm : |roundHalfEven (q / ulp32 q)| < 2 ^ 24
  · exact ⟨roundHalfEven (q / ulp32 q), ulpExp32 400 q 0, hm, hk1, hk2, rfl⟩
  · -- the rounding reached the next power of two
    have hk3 : ulpExp32 400 q 0 ≠ 104 := by
      intro h104
      have hq' := abs_le.mp hq
      have hr2 : |q / ulp32 q| ≤ 16777215 := by
        unfold ulp32
        rw [abs_div, abs_of_pos hu, div_le_iff₀ hu, h104]
        have : fltMax = 16777215 * (2 : ℚ) ^ (104 : ℤ) := by norm_num [fltMax]
        linarith
      have hr2' := abs_le.mp hr2
      have h1 : roundHalfEven (q / ulp32 q) ≤ 16777215 :=
        roundHalfEven_le _ 16777215 (by push_cast; linarith)
      have h2 : -16777215 ≤ roundHalfEven (q / ulp32 q) :=
        le_roundHalfEven _ (-16777215) (by push_cast; linarith)
      apply hm
      rw [abs_lt]
      constructor <;> norm_num <;> omega
    have e1 : (2 : ℚ) ^ (ulpExp32 400 q 0 + 1) = 2 ^ ulpExp32 400 q 0 * 2 :=
      zpow_add_one₀ (by norm_num) _
    have hcases : roundHalfEven (q / ulp32 q) = 16777216
        ∨ roundHalfEven (q / ulp32 q) = -16777216 := by
      have hm' : ¬ |roundHalfEven (q / ulp32 q)| < 16777216 := by simpa using hm
      rw [abs_lt] at hm'
      omega
    rcases hcases with h | h
    · refine ⟨8388608, ulpExp32 400 q 0 + 1, by norm_num, by omega, by omega, ?_⟩
      unfold toBinary32
      rw [h, e1]
      unfold ulp32
      push_cast
      ring
    · refine ⟨-8388608, ulpExp32 400 q 0 + 1, by norm_num, by omega, by omega, ?_⟩
      unfold toBinary32
      rw [h, e1]
      unfold ulp32
      push_cast
      ring

theorem isBinary32_abs_le (f : ℚ) (hf : IsBinary32 f) : |f| ≤ fltMax := by
  obtain ⟨m, e, hm, _, he2, rfl⟩ := hf
  have h1 : |(m : ℚ)| ≤ 16777215 := by
    have : |m| ≤ 16777215 := by
      have hm' : |m| < 16777216 := by simpa using hm
      omega
    have h2 : ((|m| : ℤ) : ℚ) ≤ ((16777215 : ℤ) : ℚ) := by exact_mod_cast this
    simpa [Int.cast_abs] using h2
  have h3 : (2 : ℚ) ^ e ≤ 2 ^ (104 : ℤ) := zpow_le_zpow_right₀ (by norm_num) he2
  have h4 : 0 < (2 : ℚ) ^ e := zpow_pos (by norm_num) _
  have h5 : fltMax = 16777215 * (2 : ℚ) ^ (104 : ℤ) := by norm_num [fltMax]
  rw [abs_mul, abs_of_pos h4, h5]
  exact mul_le_mul h1 h3 (le_of_lt h4) (by norm_num)

/-- No binary32 number is nearer to `q` than `toBinary32 q`. -/
theorem toBinary32_nearest (q f : ℚ) (hq : |q| ≤ fltMax) (hf : IsBinary32 f) :
    |toBinary32 q - q| ≤ |f - q| := by
  obtain ⟨m, e, hm, he1, _, rfl⟩ := hf
  obtain ⟨_, _, _, hge⟩ := ulpExp32_spec q hq
  by_cases hek : ulpExp32 400 q 0 ≤ e
  · have hsplit : (2 : ℚ) ^ e = 2 ^ (e - ulpExp32 400 q 0).toNat * 2 ^ ulpExp32 400 q 0 := by
      rw [← zpow_natCast, ← zpow_add₀ (by norm_num : (2 : ℚ) ≠ 0)]
      congr 1
      rw [Int.toNat_of_nonneg (by omega)]
      ring
    have h := toBinary32_nearest_multiple q (m * 2 ^ (e - ulpExp32 400 q 0).toNat)
    have h2 : ((m * 2 ^ (e - ulpExp32 400 q 0).toNat : ℤ) : ℚ) * ulp32 q = (m : ℚ) * 2 ^ e := by
      rw [hsplit]
      unfold ulp32
      push_cast
      ring
    rw [h2] at h
    exact h
  · have hk : ulpExp32 400 q 0 ≠ -149 := by omega
    have hB : 8388608 * (2 : ℚ) ^ ulpExp32 400 q 0 ≤ |q| := by
      rcases hge with h | h
      · exact h
      · exact absurd h hk
    have h1 : |(m : ℚ)| < 16777216 := by
      have h2 : ((|m| : ℤ) : ℚ) < ((16777216 : ℤ) : ℚ) := by
        have hm' : |m| < 16777216 := by simpa using hm
        exact_mod_cast hm'
      simpa [Int.cast_abs] using h2
    have h3 : 0 < (2 : ℚ) ^ e := zpow_pos (by norm_num) _
    have h4 : (2 : ℚ) ^ e ≤ 2 ^ (ulpExp32 400 q 0 - 1) :=
      zpow_le_zpow_right₀ (by norm_num) (by omega)
    have e1 : (2 : ℚ) ^ (ulpExp32 400 q 0 - 1) = 2 ^ ulpExp32 400 q 0 * 2⁻¹ :=
      zpow_sub_one₀ (by norm_num) _
    have hfabs : |(m : ℚ) * 2 ^ e| < 8388608 * (2 : ℚ) ^ ulpExp32 400 q 0 := by
      rw [abs_mul, abs_of_pos h3]
      calc |(m : ℚ)| * 2 ^ e < 16777216 * 2 ^ e := mul_lt_mul_of_pos_right h1 h3
        _ ≤ 16777216 * (2 ^ ulpExp32 400 q 0 * 2⁻¹) := by rw [← e1]; linarith
        _ = 8388608 * 2 ^ ulpExp32 400 q 0 := by ring
    have hf1 := le_abs_self ((m : ℚ) * 2 ^ e)
    have hf2 := neg_abs_le ((m : ℚ) * 2 ^ e)
    have hd1 := le_abs_self ((m : ℚ) * 2 ^ e - q)
    have hd2 := neg_abs_le ((m : ℚ) * 2 ^ e - q)
    rcases le_or_lt 0 q with hq0 | hq0
    · rw [abs_of_nonneg hq0] at hB
      have h := toBinary32_nearest_multiple q 8388608
      have hu : ulp32 q = 2 ^ ulpExp32 400 q 0 := rfl
      rw [hu] at h
      push_cast at h
      have habs : |8388608 * (2 : ℚ) ^ ulpExp32 400 q 0 - q|
          = q - 8388608 * (2 : ℚ) ^ ulpExp32 400 q 0 := by
        rw [abs_of_nonpos (by linarith)]
        ring
      rw [habs] at h
      linarith
    · rw [abs_of_neg hq0] at hB
      have h := toBinary32_nearest_multiple q (-8388608)
      have hu : ulp32 q = 2 ^ ulpExp32 400 q 0 := rfl
      rw [hu] at h
      push_cast at h
      have habs : |-8388608 * (2 : ℚ) ^ ulpExp32 400 q 0 - q|
          = -8388608 * (2 : ℚ) ^ ulpExp32 400 q 0 - q := by
        rw [abs_of_nonneg (by linarith)]
      rw [habs] at h
      linarith

/-- A binary32 number converts to itself. -/
theorem toBinary32_exact (q : ℚ) (hq : IsBinary32 q) : toBinary32 q = q := by
  have h := toBinary32_nearest q q (isBinary32_abs_le q hq) hq
  rw [sub_self, abs_zero] at h
  exact sub_eq_zero.mp (abs_nonpos_iff.mp h)

/-! ## Claims on the dense tables -/

/-- C8 at its failing input.  With `center` holding `(1, 1, 1)` when the loop
starts, the row written for the 3-4-5 triangle is `(4/3, 5/3, 1/3)` while the mean
of its vertices is `(1, 4/3, 0)`, and the row written for a face without vertices
is `(1, 1, 1)`, not the origin. -/
theorem faceCenters_uninitialised_center :
    ((faceCenters (fun _ => ⟨1, 1, 1⟩) oneTriangle (MatrixXd.ofRows [])).coeff 0 0 = 4 / 3
        ∧ (faceCenters (fun _ => ⟨1, 1, 1⟩) oneTriangle (MatrixXd.ofRows [])).coeff 0 1 = 5 / 3
        ∧ (faceCenters (fun _ => ⟨1, 1, 1⟩) oneTriangle (MatrixXd.ofRows [])).coeff 0 2 = 1 / 3)
      ∧ faceMean oneTriangle 0 = ⟨1, 4 / 3, 0⟩
      ∧ ((faceCenters (fun _ => ⟨1, 1, 1⟩) emptyFace (MatrixXd.ofRows [])).coeff 0 0 = 1
        ∧ (faceCenters (fun _ => ⟨1, 1, 1⟩) emptyFace (MatrixXd.ofRows [])).coeff 0 1 = 1
        ∧ (faceCenters (fun _ => ⟨1, 1, 1⟩) emptyFace (MatrixXd.ofRows [])).coeff 0 2 = 1) := by
  decide!

/-- C9, as the code has it: after `setPoints (V)` with `V` of size
`numVertices × 3` and entries within `FLT_MAX`, `points` gives a table of the same
size whose entry `(i, c)` is `V (i, c)` converted to `float`: a binary32 number,
none nearer to `V (i, c)`, off by at most `max (|V (i, c)| / 2^24) (2^-150)`, and
equal to `V (i, c)` exactly when `V (i, c)` is a binary32 number; and `setPoints`
changes neither the number of vertices or faces nor the vertex ids of the
faces. -/
theorem points_setPoints (uninit : Nat → Point) (mesh : MeshData) (V W : MatrixXd)
    (hrows : V.rows = numVertices mesh) (hcols : V.cols = 3)
    (hfin : ∀ i < numVertices mesh, ∀ c < 3, |V.coeff i c| ≤ fltMax) :
    (points (setPoints uninit mesh V) W).rows = V.rows
      ∧ (points (setPoints uninit mesh V) W).cols = V.cols
      ∧ (∀ i < numVertices mesh, ∀ c < 3,
          (points (setPoints uninit mesh V) W).coeff i c = toBinary32 (V.coeff i c)
            ∧ IsBinary32 ((points (setPoints uninit mesh V) W).coeff i c)
            ∧ (∀ f, IsBinary32 f →
                |(points (setPoints uninit mesh V) W).coeff i c - V.coeff i c|
                  ≤ |f - V.coeff i c|)
            ∧ |(points (setPoints uninit mesh V) W).coeff i c - V.coeff i c|
                ≤ max (|V.coeff i c| / 2 ^ 24) (1 / 2 ^ 150)
            ∧ ((points (setPoints uninit mesh V) W).coeff i c = V.coeff i c
                ↔ IsBinary32 (V.coeff i c)))
      ∧ numVertices (setPoints uninit mesh V) = numVertices mesh
      ∧ numFaces (setPoints uninit mesh V) = numFaces mesh
      ∧ (setPoints uninit mesh V).fv = mesh.fv := by
  obtain ⟨hr, hc, hco⟩ := points_spec (setPoints uninit mesh V) W
  have hn : (setPoints uninit mesh V).n_vertices = mesh.n_vertices := by
    rw [setPoints_eq]
  have hentry : ∀ i < numVertices mesh, ∀ c < 3,
      (points (setPoints uninit mesh V) W).coeff i c = toBinary32 (V.coeff i c) := by
    intro i hi c hc3
    have hi2 : i < mesh.n_vertices := hi
    rw [hco, hn]
    simp only [hi2, hc3, and_self, if_true]
    rw [setPoints_eq]
    simp only [hi2, if_true, Point.get]
    interval_cases c <;> simp
  refine ⟨?_, ?_, ?_, ?_, ?_, ?_⟩
  · rw [hr, hn, hrows]; rfl
  · rw [hc, hcols]
  · intro i hi c hc3
    have hq := hfin i hi c hc3
    rw [hentry i hi c hc3]
    refine ⟨rfl, toBinary32_isBinary32 _ hq, fun f hf => toBinary32_nearest _ f hq hf,
      toBinary32_err _ hq, ⟨fun h => ?_, fun h => toBinary32_exact _ h⟩⟩
    rw [← h]
    exact toBinary32_isBinary32 _ hq
  · exact hn
  · rw [setPoints_eq]; rfl
  · rw [setPoints_eq]

/-- C9 on the 3-4-5 triangle with a table of binary32 values: the entry `1/2` of
vertex 1 is read back as written. -/
theorem points_setPoints_witness :
    (sampleTable.rows = numVertices oneTriangle ∧ sampleTable.cols = 3
        ∧ ∀ i < numVertices oneTriangle, ∀ c < 3, |sampleTable.coeff i c| ≤ fltMax)
      ∧ sampleTable.coeff 1 0 = 1 / 2
      ∧ IsBinary32 (sampleTable.coeff 1 0)
      ∧ (points (setPoints (fun _ => ⟨9, 9, 9⟩) oneTriangle sampleTable)
          (MatrixXd.ofRows [])).coeff 1 0 = sampleTable.coeff 1 0 := by
  have hval : sampleTable.coeff 1 0 = 1 / 2 := by decide!
  have hbin : IsBinary32 (sampleTable.coeff 1 0) :=
    ⟨1, -1, by norm_num, by norm_num, by norm_num, by rw [hval]; norm_num⟩
  exact ⟨⟨by decide, by decide, by decide!⟩, hval, hbin,
    ((points_setPoints (fun _ => ⟨9, 9, 9⟩) oneTriangle sampleTable (MatrixXd.ofRows [])
      (by decide) (by decide) (by decide!)).2.2.1 1 (by decide) 0 (by decide)).2.2.2.2.mpr hbin⟩

/-- C9 fails as stated: the `double` 16777217 = 2^24 + 1 is not a `float`; written
with `setPoints` and read back with `points` it comes back as 16777216. -/
theorem points_setPoints_rounds :
    wideTable.rows = numVertices oneTriangle
      ∧ wideTable.cols = 3
      ∧ (∀ i < numVertices oneTriangle, ∀ c < 3, |wideTable.coeff i c| ≤ fltMax)
      ∧ wideTable.coeff 0 0 = 16777217
      ∧ (points (setPoints (fun _ => ⟨9, 9, 9⟩) oneTriangle wideTable)
          (MatrixXd.ofRows [])).coeff 0 0 = 16777216 := by
  decide!

end SimpleMeshViewer
